import Mathlib

/-!
# workspace-channel-cleaner-cli: `main.go`

A verification development for the discovery routine `getFilteredChannels`
(main.go:197-312) and the flag validation of `main` (main.go:111-152).

`getFilteredChannels` runs one coordinating goroutine (the pagination loop)
and one goroutine per dispatched channel.  The embedding is a step relation:
a state holds the program counter of every goroutine together with the shared
variables (`results`, `semaphore`, the wait group, the `err` variable of each
outer-loop iteration), and `step` executes one atomic action of the goroutine
picked by the scheduler.  A schedule is the list of goroutines picked; a pick of
a goroutine that cannot move leaves the state unchanged.  Theorems quantify over
every schedule.

The Slack client and `strconv` are outside the repository; their answers are a
parameter (`Backend`).  Sleeps and requests are recorded in a trace.
-/

namespace ChannelCleaner

/-! ## Go primitives used by the source -/

/-- Go `int64` wrap-around of a mathematical integer. -/
def wrapInt64 (x : Int) : Int := (x + 9223372036854775808) % 18446744073709551616 - 9223372036854775808

/-- Go `time.Duration`: an `int64` count of nanoseconds. -/
abbrev Duration := Int

/-- Go `time.Second`. -/
def Second : Duration := 1000000000

/-- Go `*` on `time.Duration` (`int64` multiplication). -/
def Duration.mul (a b : Duration) : Duration := wrapInt64 (a * b)

/-- Go `time.Time` without monotonic reading: seconds since January 1, year 1
(an `int64`) and nanoseconds within the second.  Its location is not modelled. -/
structure Time where
  sec : Int
  nsec : Int
deriving DecidableEq, Repr

/-- The zero `time.Time` (the value of `var lastTime time.Time`). -/
def Time.zero : Time := ⟨0, 0⟩

/-- Go `time.Unix(sec, 0)`: `unixToInternal` is 62135596800 seconds. -/
def Time.Unix (sec : Int) : Time := ⟨wrapInt64 (sec + 62135596800), 0⟩

/-- Go `t.After(u)`. -/
def Time.After (t u : Time) : Bool :=
  decide (t.sec > u.sec) || (decide (t.sec = u.sec) && decide (t.nsec > u.nsec))

/-- Go `t.Before(u)`. -/
def Time.Before (t u : Time) : Bool :=
  decide (t.sec < u.sec) || (decide (t.sec = u.sec) && decide (t.nsec < u.nsec))

/-- Substring test on character lists. -/
def containsChars : List Char → List Char → Bool
  | [], substr => substr.isEmpty
  | c :: s, substr => substr.isPrefixOf (c :: s) || containsChars s substr

/-- Go `strings.Contains(s, substr)`. -/
def stringsContains (s substr : String) : Bool := containsChars s.toList substr.toList

/-! ## Data model -/

/-- A Go `error` value as the source observes it: its `Error()` text and, when
its dynamic type is `*slack.RateLimitedError`, the `RetryAfter` field.  The field
is a `time.Duration`, a count of nanoseconds: for a `Retry-After: 3` header the
client stores `3 * time.Second`. -/
structure Err where
  description : String
  RetryAfter : Option Int
deriving DecidableEq, Repr

/-- The fields of `slack.Channel` read by the source. -/
structure Channel where
  ID : String
  Name : String
  IsMember : Bool
deriving DecidableEq, Repr

/-- The struct `ChannelInfo` (main.go:19-23). -/
structure ChannelInfo where
  ID : String
  Name : String
  LastSeen : Time
deriving DecidableEq, Repr

/-- A message of a history response; only `Timestamp` is read. -/
structure Message where
  Timestamp : String
deriving DecidableEq, Repr

/-- The type `slack.GetConversationHistoryResponse`; only `Messages` is read. -/
structure GetConversationHistoryResponse where
  Messages : List Message
deriving DecidableEq, Repr

/-- The type `slack.GetConversationsParameters` as filled in at main.go:210-215. -/
structure GetConversationsParameters where
  Limit : Nat
  ExcludeArchived : Bool
  Cursor : String
  Types : List String
deriving DecidableEq, Repr

/-- The type `slack.GetConversationHistoryParameters` as filled in at main.go:256-259. -/
structure GetConversationHistoryParameters where
  ChannelID : String
  Limit : Nat
deriving DecidableEq, Repr

/-- The three results of `api.GetConversations`. -/
structure ConversationsResult where
  channels : List Channel
  nextCursor : String
  err : Option Err
deriving DecidableEq, Repr

/-- The two results of `api.GetConversationHistory`. -/
structure HistoryResult where
  history : Option GetConversationHistoryResponse
  err : Option Err
deriving DecidableEq, Repr

/-- The world outside `main.go`, given by the answers it gives during one run.
`GetConversations n params` is the answer to the call made after `n` earlier
calls (the calls are made by one goroutine, one after the other);
`GetConversationHistory g a params` is the answer to the call made by goroutine
`g` after `a` earlier calls of that goroutine.  Whatever the state of the remote
service and however its answers depend on the interleaving, a run determines such
a table, so a statement about every `Backend` and every schedule covers every run.
`timestampSeconds ts` is `int64(tsFloat)` for
`tsFloat, err := strconv.ParseFloat(ts, 64)`, and `none` when `err != nil`. -/
structure Backend where
  GetConversations : Nat → GetConversationsParameters → ConversationsResult
  GetConversationHistory : Nat → Nat → GetConversationHistoryParameters → HistoryResult
  timestampSeconds : String → Option Int

/-- The arguments of `getFilteredChannels` and the global `skipChannels`
(main.go:29), whose keys are all stored with the value `true`. -/
structure Config where
  skipChannels : List String
  cutoff : Time
  keyword : String
  useDate : Bool
  types : List String

/-- The error built by `fmt.Errorf("error listing conversations: %w", err)`. -/
structure WrappedErr where
  message : String
  cause : Err
deriving DecidableEq, Repr

/-- Goroutines: the caller of `getFilteredChannels` and the `g`-th `go func`. -/
inductive Thread
  | main
  | probe (g : Nat)
deriving DecidableEq, Repr

/-- Observable actions. -/
inductive Event
  | listRequest (params : GetConversationsParameters)
  | historyRequest (g : Nat) (params : GetConversationHistoryParameters)
  | sleep (t : Thread) (d : Duration)
deriving DecidableEq, Repr

/-- Program counter of the pagination loop. -/
inductive MainPC
  | listing (cursor : String)
  | waiting
  | returned (results : List ChannelInfo) (err : Option WrappedErr)
deriving DecidableEq, Repr

/-- Program counter of a `go func(ch slack.Channel)` body (main.go:247-301).
`blocked`: before `semaphore <- struct{}{}`;
`request a`: at the call of line 256 with `attempt = a`;
`check a history`: at `if err != nil` of line 260, `history` just assigned;
`ready lastTime`: at `chMutex.Lock()` of line 292;
`pacing info`: at `time.Sleep(1 * time.Second)` of line 300, `info` appended;
`done out`: returned, deferred calls run; `out` is what it appended. -/
inductive ProbePC
  | blocked
  | request (attempt : Nat)
  | check (attempt : Nat) (history : Option GetConversationHistoryResponse)
  | ready (lastTime : Time)
  | pacing (info : ChannelInfo)
  | done (out : Option ChannelInfo)
deriving DecidableEq, Repr

/-- One launched goroutine: its argument, the outer-loop iteration whose `err`
variable its closure captured, and its program counter. -/
structure Probe where
  ch : Channel
  page : Nat
  pc : ProbePC
deriving DecidableEq, Repr

/-- The state of a run of `getFilteredChannels`. -/
structure State where
  main : MainPC
  calls : Nat
  pages : Nat
  probes : List Probe
  err : Nat → Option Err
  semaphore : Nat
  wg : Nat
  results : List ChannelInfo
  trace : List Event

/-! ## The program -/

/-- The rate-limit tests of the page fetch (main.go:219-232): the sleep before
`continue`, or `none` when neither test matches. -/
def pageBackoff (e : Err) : Option Duration :=
  if stringsContains e.description "rate_limited" then
    some (30 * Second)
  else
    match e.RetryAfter with
    | some retryAfter =>
      let wait := Duration.mul retryAfter Second
      some (if wait ≤ 0 then 30 * Second else wait)
    | none => none

/-- The rate-limit tests of the history probe (main.go:261-272). -/
def probeBackoff (e : Err) : Option Duration :=
  if stringsContains e.description "rate_limited" then
    some (30 * Second)
  else
    match e.RetryAfter with
    | some retryAfter =>
      let wait := Duration.mul retryAfter Second
      some (if wait ≤ 0 then 30 * Second else wait)
    | none => none

/-- The two `continue` tests of the dispatch loop (main.go:239-244): `true` when
a goroutine is launched for `ch`. -/
def dispatched (cfg : Config) (ch : Channel) : Bool :=
  if !ch.IsMember || cfg.skipChannels.contains ch.Name then false
  else if cfg.keyword != "" && !stringsContains ch.Name cfg.keyword then false
  else true

/-- Lines 277-289: from the `history` left by the retry loop to `lastTime`, or
`none` when the goroutine returns without appending. -/
def afterLoop (b : Backend) (cfg : Config) (history : Option GetConversationHistoryResponse) :
    Option Time :=
  match history with
  | none => none
  | some h =>
    match h.Messages with
    | [] => none
    | m :: _ =>
      match b.timestampSeconds m.Timestamp with
      | none => none
      | some tsSeconds =>
        let lastTime := Time.Unix tsSeconds
        if lastTime.After cfg.cutoff then none else some lastTime

/-- Replace the program counter of goroutine `g`. -/
def setPC (probes : List Probe) (g : Nat) (pc : ProbePC) : List Probe :=
  match probes[g]? with
  | some p => probes.set g { p with pc := pc }
  | none => probes

/-- The state at entry of `getFilteredChannels` (main.go:198-202). -/
def State.init : State :=
  { main := .listing "", calls := 0, pages := 0, probes := [], err := fun _ => none,
    semaphore := 0, wg := 0, results := [], trace := [] }

/-- The `params` built at main.go:210-215. -/
def listParams (cfg : Config) (cursor : String) : GetConversationsParameters :=
  { Limit := 30, ExcludeArchived := true, Cursor := cursor, Types := cfg.types }

/-- One step of the caller: one iteration of the inner `for` (main.go:209-236)
followed, when the fetch succeeded, by the dispatch loop (main.go:238-308); or
`wg.Wait()` and the final `return` (main.go:310-311).  The goroutines of a page are
launched in one step: a launched goroutine shares nothing with the loop but the
wait group, so launching them together only delays their first step.  Each outer
iteration declares its own `err` (main.go:207); the goroutines launched in
iteration `s.pages` capture that variable. -/
def stepMain (b : Backend) (cfg : Config) (s : State) : State :=
  match s.main with
  | .listing cursor =>
    let params := listParams cfg cursor
    let r := b.GetConversations s.calls params
    let s1 : State := { s with calls := s.calls + 1, trace := s.trace ++ [Event.listRequest params] }
    match r.err with
    | some e =>
      match pageBackoff e with
      | some wait => { s1 with trace := s1.trace ++ [Event.sleep Thread.main wait] }
      | none => { s1 with main := .returned [] (some ⟨"error listing conversations: ", e⟩) }
    | none =>
      let launched := (r.channels.filter (dispatched cfg)).map (fun ch => Probe.mk ch s.pages .blocked)
      { s1 with
        probes := s1.probes ++ launched
        wg := s1.wg + launched.length
        pages := s1.pages + 1
        main := if r.nextCursor = "" then .waiting else .listing r.nextCursor }
  | .waiting => if s.wg = 0 then { s with main := .returned s.results none } else s
  | .returned _ _ => s

/-- Goroutine `g` returns: the deferred `<-semaphore` and `wg.Done()` run. -/
def exitProbe (s : State) (g : Nat) (out : Option ChannelInfo) : State :=
  { s with probes := setPC s.probes g (.done out), semaphore := s.semaphore - 1, wg := s.wg - 1 }

/-- Goroutine `g` leaves the retry loop with `history` (main.go:277-290). -/
def leaveLoop (b : Backend) (cfg : Config) (s : State) (g : Nat)
    (history : Option GetConversationHistoryResponse) : State :=
  match afterLoop b cfg history with
  | some lastTime => { s with probes := setPC s.probes g (.ready lastTime) }
  | none => exitProbe s g none

/-- One atomic action of goroutine `g` (main.go:247-301): the acquisition of a
slot; the call of line 256 with the assignment of its two results, `history` being
local and `err` the captured variable of the outer iteration; the tests of lines
260-273 on the value `err` holds by then (read once), with the sleep and the code
that follows up to the next shared access; the locked append of lines 292-298; the
pacing sleep with the deferred release and `wg.Done()`. -/
def stepProbe (b : Backend) (cfg : Config) (s : State) (g : Nat) : State :=
  match s.probes[g]? with
  | none => s
  | some p =>
    match p.pc with
    | .blocked =>
      if s.semaphore < 5 then
        { s with
          semaphore := s.semaphore + 1
          probes := setPC s.probes g (if cfg.useDate then .request 0 else .ready Time.zero) }
      else s
    | .request attempt =>
      let params : GetConversationHistoryParameters := { ChannelID := p.ch.ID, Limit := 1 }
      let r := b.GetConversationHistory g attempt params
      { s with
        probes := setPC s.probes g (.check attempt r.history)
        err := Function.update s.err p.page r.err
        trace := s.trace ++ [Event.historyRequest g params] }
    | .check attempt history =>
      match s.err p.page with
      | some e =>
        match probeBackoff e with
        | some wait =>
          let s1 : State := { s with trace := s.trace ++ [Event.sleep (Thread.probe g) wait] }
          if attempt + 1 < 2 then { s1 with probes := setPC s1.probes g (.request (attempt + 1)) }
          else leaveLoop b cfg s1 g history
        | none => exitProbe s g none
      | none => leaveLoop b cfg s g history
    | .ready lastTime =>
      let info : ChannelInfo := { ID := p.ch.ID, Name := p.ch.Name, LastSeen := lastTime }
      { s with results := s.results ++ [info], probes := setPC s.probes g (.pacing info) }
    | .pacing info =>
      exitProbe { s with trace := s.trace ++ [Event.sleep (Thread.probe g) (1 * Second)] } g (some info)
    | .done _ => s

/-- One scheduling decision. -/
def step (b : Backend) (cfg : Config) (s : State) : Thread → State
  | .main => stepMain b cfg s
  | .probe g => stepProbe b cfg s g

/-- Run a schedule. -/
def run (b : Backend) (cfg : Config) (sched : List Thread) (s : State) : State :=
  sched.foldl (step b cfg) s

/-- The pair returned by `getFilteredChannels` under a schedule, `none` while the
caller has not returned. -/
def getFilteredChannels (b : Backend) (cfg : Config) (sched : List Thread) :
    Option (List ChannelInfo × Option WrappedErr) :=
  match (run b cfg sched State.init).main with
  | .returned results err => some (results, err)
  | _ => none

/-! ## Flag validation of `main` -/

/-- The test of main.go:117: `true` when the run is rejected by `log.Fatal`. -/
def rejected (days : Int) (keyword : String) : Bool :=
  decide (days = 0) && keyword == ""

/-- The `useDate` argument computed at main.go:152. -/
def useDateOf (days : Int) : Bool := decide (days > 0)

/-! ## Vocabulary of the properties -/

/-- The parameters of the page requests of a trace, in order. -/
def listRequests : List Event → List GetConversationsParameters
  | [] => []
  | Event.listRequest params :: t => params :: listRequests t
  | Event.historyRequest _ _ :: t => listRequests t
  | Event.sleep _ _ :: t => listRequests t

/-- Is the event a history request of goroutine `g`? -/
def isHistoryRequestOf (g : Nat) : Event → Bool
  | Event.historyRequest g1 _ => g1 == g
  | _ => false

/-- Number of history requests issued by goroutine `g`. -/
def historyRequests (g : Nat) (trace : List Event) : Nat :=
  trace.countP (isHistoryRequestOf g)

/-- The goroutine has acquired a slot of `semaphore` and not released it. -/
def holding : ProbePC → Bool
  | .request _ => true
  | .check _ _ => true
  | .ready _ => true
  | .pacing _ => true
  | .blocked => false
  | .done _ => false

/-- The goroutine has not called `wg.Done()` yet. -/
def running : ProbePC → Bool
  | .done _ => false
  | _ => true

/-- The entry the goroutine has appended to `results`, if any. -/
def appended : ProbePC → Option ChannelInfo
  | .pacing info => some info
  | .done out => out
  | _ => none

/-- The channel `ch` was on a page that a successful page request of the trace
returned. -/
def Enumerated (b : Backend) (trace : List Event) (ch : Channel) : Prop :=
  ∃ n params, (listRequests trace)[n]? = some params ∧
    (b.GetConversations n params).err = none ∧ ch ∈ (b.GetConversations n params).channels

/-- The `lastTime` a goroutine may hold at line 292 after `n` history requests:
the zero time without date filter, else the value lines 277-289 derive from one
of the `n` history responses it received. -/
def TimeOK (b : Backend) (cfg : Config) (g : Nat) (ch : Channel) (n : Nat) (t : Time) : Prop :=
  if cfg.useDate = true then
    ∃ a, a < n ∧ afterLoop b cfg (b.GetConversationHistory g a ⟨ch.ID, 1⟩).history = some t
  else t = Time.zero

/-- An entry appended by goroutine `g` launched for `ch`. -/
def InfoOK (b : Backend) (cfg : Config) (g : Nat) (ch : Channel) (n : Nat)
    (info : ChannelInfo) : Prop :=
  info.ID = ch.ID ∧ info.Name = ch.Name ∧ TimeOK b cfg g ch n info.LastSeen

/-- What holds at each program counter of goroutine `g` launched for `ch`, `n`
being the number of history requests it has issued. -/
def PcOK (b : Backend) (cfg : Config) (g : Nat) (ch : Channel) (n : Nat) : ProbePC → Prop
  | .blocked => n = 0
  | .request a => cfg.useDate = true ∧ a < 2 ∧ n = a
  | .check a h =>
    cfg.useDate = true ∧ a < 2 ∧ n = a + 1 ∧ h = (b.GetConversationHistory g a ⟨ch.ID, 1⟩).history
  | .ready t => n ≤ 2 ∧ TimeOK b cfg g ch n t
  | .pacing info => n ≤ 2 ∧ InfoOK b cfg g ch n info
  | .done (some info) => n ≤ 2 ∧ InfoOK b cfg g ch n info
  | .done none => cfg.useDate = true ∧ n ≤ 2

/-- What holds of goroutine `g` after the actions of `trace`. -/
def ProbeOK (b : Backend) (cfg : Config) (trace : List Event) (g : Nat) (p : Probe) : Prop :=
  dispatched cfg p.ch = true ∧ Enumerated b trace p.ch ∧
    PcOK b cfg g p.ch (historyRequests g trace) p.pc

/-- Invariant of the goroutines and of the request log. -/
structure ProbesInv (b : Backend) (cfg : Config) (s : State) : Prop where
  calls_eq : s.calls = (listRequests s.trace).length
  probes_ok : ∀ g p, s.probes[g]? = some p → ProbeOK b cfg s.trace g p
  absent : ∀ g, s.probes.length ≤ g → historyRequests g s.trace = 0
  requests_ok : ∀ g params, Event.historyRequest g params ∈ s.trace →
    cfg.useDate = true ∧ ∃ p, s.probes[g]? = some p ∧ params = ⟨p.ch.ID, 1⟩

/-- Invariant of the admission gate and of the wait group. -/
structure GateInv (s : State) : Prop where
  sem_eq : s.semaphore = s.probes.countP (fun p => holding p.pc)
  sem_le : s.semaphore ≤ 5
  wg_eq : s.wg = s.probes.countP (fun p => running p.pc)

/-- The `n`-th page request of the trace failed with `e`, and `e` is not a
rate-limit signal: its description does not contain "rate_limited" and it is not
a `*slack.RateLimitedError`. -/
def FatalRequest (b : Backend) (trace : List Event) (n : Nat) (e : Err) : Prop :=
  ∃ params, (listRequests trace)[n]? = some params ∧
    (b.GetConversations n params).err = some e ∧
    stringsContains e.description "rate_limited" = false ∧ e.RetryAfter = none

/-- Invariant of the pagination loop. -/
structure MainInv (b : Backend) (s : State) : Prop where
  failed : ∀ res w, s.main = .returned res (some w) →
    res = [] ∧ w.message = "error listing conversations: " ∧ 0 < s.calls ∧
      FatalRequest b s.trace (s.calls - 1) w.cause
  fatal_last : ∀ n e, FatalRequest b s.trace n e →
    n + 1 = s.calls ∧ s.main = .returned [] (some ⟨"error listing conversations: ", e⟩)
  returned_ok : ∀ res, s.main = .returned res none → res = s.results ∧ s.wg = 0

/-- Invariant of `results`: it holds exactly what the goroutines appended. -/
def ResultsInv (s : State) : Prop :=
  s.results.Perm (s.probes.filterMap (fun p => appended p.pc))

/-- An upper bound on the number of steps goroutine code at `pc` still takes. -/
def remaining : ProbePC → Nat
  | .blocked => 7
  | .request attempt => 4 + 2 * (1 - attempt)
  | .check attempt _ => 3 + 2 * (1 - attempt)
  | .ready _ => 2
  | .pacing _ => 1
  | .done _ => 0

/-- An upper bound on the number of goroutine steps still to come. -/
def workLeft (s : State) : Nat := (s.probes.map (fun p => remaining p.pc)).sum

/-- The invariant of every reachable state. -/
structure Inv (b : Backend) (cfg : Config) (s : State) : Prop where
  probes : ProbesInv b cfg s
  gate : GateInv s
  results : ResultsInv s
  main : MainInv b s

/-- A rate-limit signal as the two tests of main.go:219-224 and 261-265 see it:
the description contains "rate_limited", or the error is a
`*slack.RateLimitedError`. -/
def isRateLimitSignal (e : Err) : Bool :=
  stringsContains e.description "rate_limited" || e.RetryAfter.isSome

/-- Is the event a backoff sleep of the pagination loop? -/
def isMainSleep : Event → Bool
  | Event.sleep Thread.main _ => true
  | _ => false

/-- Number of backoff sleeps of the pagination loop. -/
def mainSleeps (trace : List Event) : Nat := trace.countP isMainSleep

/-- What `main` hands to `getFilteredChannels` (main.go:117-152): `none` when the
run is rejected by the test of line 117, else the `keyword` and `useDate`
arguments of the call of line 152. -/
def mainArguments (days : Int) (keyword : String) : Option (String × Bool) :=
  if rejected days keyword then none else some (keyword, useDateOf days)

/-- The cursor chain of the backend, in the words of the specification: the listing
starts from the empty cursor, and the cursor of page `n + 1` is the next cursor that
the backend returns for the request of page `n`, a request with page size 30,
archived channels excluded, the cursor of page `n` and the requested visibility
types. -/
def cursorAt (b : Backend) (cfg : Config) : Nat → String
  | 0 => ""
  | n + 1 =>
    (b.GetConversations n
      { Limit := 30, ExcludeArchived := true, Cursor := cursorAt b cfg n,
        Types := cfg.types }).nextCursor

/-- The page of the backend at position `n` of its cursor chain: its answer to the
request with page size 30, archived channels excluded, the cursor of page `n` and
the requested visibility types. -/
def pageAt (b : Backend) (cfg : Config) (n : Nat) : ConversationsResult :=
  b.GetConversations n
    { Limit := 30, ExcludeArchived := true, Cursor := cursorAt b cfg n, Types := cfg.types }

/-- The cursor chain is finite and every page fetch succeeds: pages `0` to `last`
are served without error, and page `last` is the first with an empty next cursor. -/
def FiniteChain (b : Backend) (cfg : Config) (last : Nat) : Prop :=
  (∀ n, n ≤ last → (pageAt b cfg n).err = none) ∧
  (∀ n, n < last → (pageAt b cfg n).nextCursor ≠ "") ∧
  (pageAt b cfg last).nextCursor = ""

/-- The selection in the words of the specification: a member channel whose name is
not in the skip set and contains the keyword when the keyword is not empty. -/
def Selected (cfg : Config) (ch : Channel) : Prop :=
  ch.IsMember = true ∧ ch.Name ∉ cfg.skipChannels ∧
    (cfg.keyword ≠ "" → cfg.keyword.toList <:+: ch.Name.toList)

instance (cfg : Config) (ch : Channel) : Decidable (Selected cfg ch) := by
  unfold Selected
  exact inferInstance

/-- The selected channels of pages `0` to `last`, each with the zero `LastSeen`. -/
def expectedWithoutDate (b : Backend) (cfg : Config) (last : Nat) : List ChannelInfo :=
  (List.range (last + 1)).flatMap (fun n =>
    ((pageAt b cfg n).channels.filter (fun ch => decide (Selected cfg ch))).map
      (fun ch => ⟨ch.ID, ch.Name, Time.zero⟩))

/-- The channels dispatched from the first `n` pages of the cursor chain. -/
def dispatchedUpTo (b : Backend) (cfg : Config) (n : Nat) : List Channel :=
  (List.range n).flatMap (fun i => (pageAt b cfg i).channels.filter (dispatched cfg))

/-- Invariant of the pagination loop along a finite cursor chain. -/
def ChainInv (b : Backend) (cfg : Config) (last : Nat) (s : State) : Prop :=
  match s.main with
  | .listing cursor =>
    s.calls ≤ last ∧ cursor = cursorAt b cfg s.calls ∧
      s.probes.map (fun p => p.ch) = dispatchedUpTo b cfg s.calls
  | .waiting => s.probes.map (fun p => p.ch) = dispatchedUpTo b cfg (last + 1)
  | .returned _ err => err = none ∧ s.probes.map (fun p => p.ch) = dispatchedUpTo b cfg (last + 1)

/-! ## Sample inputs -/

/-- Reads the decimal digits before the first `.` of a timestamp. -/
def readDigits : List Char → Nat → Option Nat
  | [], acc => some acc
  | c :: cs, acc =>
    if c.isDigit then readDigits cs (acc * 10 + (c.toNat - 48))
    else if c = '.' then some acc
    else none

/-- A stand-in for `strconv.ParseFloat` followed by `int64(...)` on the
timestamps of the sample inputs. -/
def sampleSeconds (ts : String) : Option Int :=
  match ts.toList with
  | [] => none
  | cs => (readDigits cs 0).map Int.ofNat

/-- One page with two member channels; the history of `alpha` holds one message
stamped 50, the history call for `beta` fails with `channel_not_found`. -/
def demoBackend : Backend :=
  { GetConversations := fun _ _ =>
      ⟨[⟨"C1", "alpha", true⟩, ⟨"C2", "beta", true⟩], "", none⟩
    GetConversationHistory := fun g _ _ =>
      if g = 0 then ⟨some ⟨[⟨"50.000200"⟩]⟩, none⟩ else ⟨none, some ⟨"channel_not_found", none⟩⟩
    timestampSeconds := sampleSeconds }

/-- Date filter with the cutoff at second 100. -/
def demoConfig : Config :=
  { skipChannels := ["general"], cutoff := Time.Unix 100, keyword := "", useDate := true,
    types := ["public_channel", "private_channel"] }

/-- Keyword filter "alp" without date filter. -/
def keywordConfig : Config :=
  { skipChannels := ["general"], cutoff := Time.Unix 100, keyword := "alp", useDate := false,
    types := ["public_channel", "private_channel"] }

/-- Date filter with the cutoff at second 50, the second of `alpha`'s message. -/
def boundaryConfig : Config :=
  { skipChannels := ["general"], cutoff := Time.Unix 50, keyword := "", useDate := true,
    types := ["public_channel", "private_channel"] }

/-- The first page request is answered by a rate-limit signal, the second by an
authentication failure. -/
def failingBackend : Backend :=
  { GetConversations := fun n _ =>
      if n = 0 then
        ⟨[], "", some ⟨"slack rate limit exceeded, retry after 3s", some (3 * Second)⟩⟩
      else ⟨[], "", some ⟨"invalid_auth", none⟩⟩
    GetConversationHistory := fun _ _ _ => ⟨none, none⟩
    timestampSeconds := sampleSeconds }

/-- The first page request is answered by a rate-limit signal, the second by a
page with one member channel. -/
def limitedBackend : Backend :=
  { GetConversations := fun n _ =>
      if n = 0 then ⟨[], "", some ⟨"rate_limited", none⟩⟩
      else ⟨[⟨"C1", "alpha", true⟩], "", none⟩
    GetConversationHistory := fun _ _ _ => ⟨some ⟨[⟨"50.000200"⟩]⟩, none⟩
    timestampSeconds := sampleSeconds }

/-- A backend keyed by the cursor: the empty cursor gives the first page and the
next cursor "page2", the cursor "page2" gives the last page, and any other cursor
is refused. -/
def pagedBackend : Backend :=
  { GetConversations := fun _ params =>
      if params.Cursor = "" then
        ⟨[⟨"C1", "alpha", true⟩, ⟨"C0", "general", true⟩], "page2", none⟩
      else if params.Cursor = "page2" then
        ⟨[⟨"C2", "beta", true⟩, ⟨"C3", "alpine", true⟩, ⟨"C4", "alps", false⟩], "", none⟩
      else ⟨[], "", some ⟨"invalid_cursor", none⟩⟩
    GetConversationHistory := fun _ _ _ => ⟨none, none⟩
    timestampSeconds := sampleSeconds }

/-- The first page request and the first history call are answered by the
`*slack.RateLimitedError` of a `Retry-After: 3` header, whose `RetryAfter` is
`3 * time.Second`. -/
def suggestingBackend : Backend :=
  { GetConversations := fun n _ =>
      if n = 0 then
        ⟨[], "", some ⟨"slack rate limit exceeded, retry after 3s", some (3 * Second)⟩⟩
      else ⟨[⟨"C1", "alpha", true⟩], "", none⟩
    GetConversationHistory := fun _ a _ =>
      if a = 0 then
        ⟨none, some ⟨"slack rate limit exceeded, retry after 3s", some (3 * Second)⟩⟩
      else ⟨some ⟨[⟨"50.000200"⟩]⟩, none⟩
    timestampSeconds := sampleSeconds }

/-- A schedule that runs the two goroutines of `demoBackend` one after the other. -/
def serialSchedule : List Thread :=
  [.main, .probe 0, .probe 0, .probe 0, .probe 0, .probe 0, .probe 1, .probe 1, .probe 1, .main]

/-- A schedule in which goroutine 1 assigns `err` between the assignment and the
test of goroutine 0. -/
def racySchedule : List Thread :=
  [.main, .probe 0, .probe 1, .probe 0, .probe 1, .probe 0, .probe 1, .main]

end ChannelCleaner

/-! ## Case analysis of the step functions -/

namespace ChannelCleaner

theorem containsChars_iff (s substr : List Char) :
    containsChars s substr = true ↔ substr <:+: s := by
  induction s with
  | nil =>
    cases substr <;> simp [containsChars]
  | cons c s ih =>
    simp only [containsChars, Bool.or_eq_true, ih, List.infix_cons_iff]
    rw [ List.isPrefixOf_iff_prefix]

theorem setPC_of_get {probes : List Probe} {g : Nat} {p : Probe} (h : probes[g]? = some p)
    (pc : ProbePC) : setPC probes g pc = probes.set g { p with pc := pc } := by
  simp [setPC, h]

/-- Case analysis of a goroutine step; the state is unchanged only when the
goroutine does not exist, has returned, or waits for a free slot. -/
theorem stepProbe_cases (b : Backend) (cfg : Config) (s : State) (g : Nat) {P : State → Prop}
    (hskip : (∀ p, s.probes[g]? = some p →
      (p.pc = .blocked ∧ ¬ s.semaphore < 5) ∨ ∃ out, p.pc = .done out) → P s)
    (hacquire : ∀ p, s.probes[g]? = some p → p.pc = .blocked → s.semaphore < 5 →
      P { s with
          semaphore := s.semaphore + 1
          probes := s.probes.set g
            { p with pc := if cfg.useDate then .request 0 else .ready Time.zero } })
    (hrequest : ∀ p attempt, s.probes[g]? = some p → p.pc = .request attempt →
      P { s with
          probes := s.probes.set g
            { p with pc := .check attempt (b.GetConversationHistory g attempt ⟨p.ch.ID, 1⟩).history }
          err := Function.update s.err p.page (b.GetConversationHistory g attempt ⟨p.ch.ID, 1⟩).err
          trace := s.trace ++ [Event.historyRequest g ⟨p.ch.ID, 1⟩] })
    (hretry : ∀ p attempt history e wait, s.probes[g]? = some p → p.pc = .check attempt history →
      s.err p.page = some e → probeBackoff e = some wait → attempt + 1 < 2 →
      P { s with
          probes := s.probes.set g { p with pc := .request (attempt + 1) }
          trace := s.trace ++ [Event.sleep (Thread.probe g) wait] })
    (hready : ∀ p attempt history lastTime evs, s.probes[g]? = some p →
      p.pc = .check attempt history → afterLoop b cfg history = some lastTime →
      (∀ ev ∈ evs, ∃ wait, ev = Event.sleep (Thread.probe g) wait) →
      P { s with
          probes := s.probes.set g { p with pc := .ready lastTime }
          trace := s.trace ++ evs })
    (hdrop : ∀ p attempt history evs, s.probes[g]? = some p → p.pc = .check attempt history →
      (∀ ev ∈ evs, ∃ wait, ev = Event.sleep (Thread.probe g) wait) →
      P { s with
          probes := s.probes.set g { p with pc := .done none }
          semaphore := s.semaphore - 1
          wg := s.wg - 1
          trace := s.trace ++ evs })
    (happend : ∀ p lastTime, s.probes[g]? = some p → p.pc = .ready lastTime →
      P { s with
          results := s.results ++ [⟨p.ch.ID, p.ch.Name, lastTime⟩]
          probes := s.probes.set g { p with pc := .pacing ⟨p.ch.ID, p.ch.Name, lastTime⟩ } })
    (hfinish : ∀ p info, s.probes[g]? = some p → p.pc = .pacing info →
      P { s with
          probes := s.probes.set g { p with pc := .done (some info) }
          semaphore := s.semaphore - 1
          wg := s.wg - 1
          trace := s.trace ++ [Event.sleep (Thread.probe g) (1 * Second)] }) :
    P (stepProbe b cfg s g) := by
  unfold stepProbe
  cases hp : s.probes[g]? with
  | none => exact hskip (fun p h => by simp [hp] at h)
  | some p =>
    simp only []
    cases hpc : p.pc with
    | blocked =>
      simp only []
      split
      · rename_i hlt
        have := hacquire p hp hpc hlt
        simpa [setPC_of_get hp] using this
      · rename_i hge
        exact hskip (fun q h => by
          rw [hp] at h
          cases h
          exact Or.inl ⟨hpc, hge⟩)
    | request attempt =>
      have := hrequest p attempt hp hpc
      simpa [setPC_of_get hp] using this
    | check attempt history =>
      simp only []
      cases he : s.err p.page with
      | none =>
        simp only [leaveLoop]
        cases hal : afterLoop b cfg history with
        | none =>
          have := hdrop p attempt history [] hp hpc (by simp)
          simpa [exitProbe, setPC_of_get hp] using this
        | some lastTime =>
          have := hready p attempt history lastTime [] hp hpc hal (by simp)
          simpa [setPC_of_get hp] using this
      | some e =>
        simp only []
        cases hb : probeBackoff e with
        | none =>
          have := hdrop p attempt history [] hp hpc (by simp)
          simpa [exitProbe, setPC_of_get hp] using this
        | some wait =>
          simp only []
          split
          · rename_i hlt
            have := hretry p attempt history e wait hp hpc he hb hlt
            simpa [setPC_of_get hp] using this
          · simp only [leaveLoop]
            cases hal : afterLoop b cfg history with
            | none =>
              have := hdrop p attempt history [Event.sleep (Thread.probe g) wait] hp hpc
                (by simp)
              simpa [exitProbe, setPC_of_get hp] using this
            | some lastTime =>
              have := hready p attempt history lastTime [Event.sleep (Thread.probe g) wait] hp hpc
                hal (by simp)
              simpa [setPC_of_get hp] using this
    | ready lastTime =>
      have := happend p lastTime hp hpc
      simpa [setPC_of_get hp] using this
    | pacing info =>
      have := hfinish p info hp hpc
      simpa [exitProbe, setPC_of_get hp] using this
    | done out =>
      exact hskip (fun q h => by
        rw [hp] at h
        cases h
        exact Or.inr ⟨out, hpc⟩)

/-- Case analysis of a goroutine step.  The cases `hready` and `hdrop` do not say
which value `err` held, so what is proved through this analysis holds whatever the
tests of lines 260-265 read from the shared variable. -/
theorem stepProbe_elim (b : Backend) (cfg : Config) (s : State) (g : Nat) {P : State → Prop}
    (hskip : P s)
    (hacquire : ∀ p, s.probes[g]? = some p → p.pc = .blocked → s.semaphore < 5 →
      P { s with
          semaphore := s.semaphore + 1
          probes := s.probes.set g
            { p with pc := if cfg.useDate then .request 0 else .ready Time.zero } })
    (hrequest : ∀ p attempt, s.probes[g]? = some p → p.pc = .request attempt →
      P { s with
          probes := s.probes.set g
            { p with pc := .check attempt (b.GetConversationHistory g attempt ⟨p.ch.ID, 1⟩).history }
          err := Function.update s.err p.page (b.GetConversationHistory g attempt ⟨p.ch.ID, 1⟩).err
          trace := s.trace ++ [Event.historyRequest g ⟨p.ch.ID, 1⟩] })
    (hretry : ∀ p attempt history e wait, s.probes[g]? = some p → p.pc = .check attempt history →
      s.err p.page = some e → probeBackoff e = some wait → attempt + 1 < 2 →
      P { s with
          probes := s.probes.set g { p with pc := .request (attempt + 1) }
          trace := s.trace ++ [Event.sleep (Thread.probe g) wait] })
    (hready : ∀ p attempt history lastTime evs, s.probes[g]? = some p →
      p.pc = .check attempt history → afterLoop b cfg history = some lastTime →
      (∀ ev ∈ evs, ∃ wait, ev = Event.sleep (Thread.probe g) wait) →
      P { s with
          probes := s.probes.set g { p with pc := .ready lastTime }
          trace := s.trace ++ evs })
    (hdrop : ∀ p attempt history evs, s.probes[g]? = some p → p.pc = .check attempt history →
      (∀ ev ∈ evs, ∃ wait, ev = Event.sleep (Thread.probe g) wait) →
      P { s with
          probes := s.probes.set g { p with pc := .done none }
          semaphore := s.semaphore - 1
          wg := s.wg - 1
          trace := s.trace ++ evs })
    (happend : ∀ p lastTime, s.probes[g]? = some p → p.pc = .ready lastTime →
      P { s with
          results := s.results ++ [⟨p.ch.ID, p.ch.Name, lastTime⟩]
          probes := s.probes.set g { p with pc := .pacing ⟨p.ch.ID, p.ch.Name, lastTime⟩ } })
    (hfinish : ∀ p info, s.probes[g]? = some p → p.pc = .pacing info →
      P { s with
          probes := s.probes.set g { p with pc := .done (some info) }
          semaphore := s.semaphore - 1
          wg := s.wg - 1
          trace := s.trace ++ [Event.sleep (Thread.probe g) (1 * Second)] }) :
    P (stepProbe b cfg s g) :=
  stepProbe_cases b cfg s g (fun _ => hskip) hacquire hrequest hretry hready hdrop happend hfinish

/-- Case analysis of a step of the pagination loop. -/
theorem stepMain_elim (b : Backend) (cfg : Config) (s : State) {P : State → Prop}
    (hskip : P s)
    (hlimited : ∀ cursor e wait, s.main = .listing cursor →
      (b.GetConversations s.calls (listParams cfg cursor)).err = some e →
      pageBackoff e = some wait →
      P { s with
          calls := s.calls + 1
          trace := s.trace ++ [Event.listRequest (listParams cfg cursor)] ++
            [Event.sleep Thread.main wait] })
    (hfail : ∀ cursor e, s.main = .listing cursor →
      (b.GetConversations s.calls (listParams cfg cursor)).err = some e →
      pageBackoff e = none →
      P { s with
          calls := s.calls + 1
          trace := s.trace ++ [Event.listRequest (listParams cfg cursor)]
          main := .returned [] (some ⟨"error listing conversations: ", e⟩) })
    (hpage : ∀ cursor, s.main = .listing cursor →
      (b.GetConversations s.calls (listParams cfg cursor)).err = none →
      P { s with
          calls := s.calls + 1
          trace := s.trace ++ [Event.listRequest (listParams cfg cursor)]
          probes := s.probes ++
            ((b.GetConversations s.calls (listParams cfg cursor)).channels.filter
              (dispatched cfg)).map (fun ch => Probe.mk ch s.pages .blocked)
          wg := s.wg +
            (((b.GetConversations s.calls (listParams cfg cursor)).channels.filter
              (dispatched cfg)).map (fun ch => Probe.mk ch s.pages .blocked)).length
          pages := s.pages + 1
          main := if (b.GetConversations s.calls (listParams cfg cursor)).nextCursor = ""
            then .waiting
            else .listing (b.GetConversations s.calls (listParams cfg cursor)).nextCursor })
    (hreturn : s.main = .waiting → s.wg = 0 → P { s with main := .returned s.results none }) :
    P (stepMain b cfg s) := by
  unfold stepMain
  cases hm : s.main with
  | listing cursor =>
    simp only []
    cases he : (b.GetConversations s.calls (listParams cfg cursor)).err with
    | none =>
      have := hpage cursor hm he
      simpa [hm] using this
    | some e =>
      simp only []
      cases hb : pageBackoff e with
      | none =>
        have := hfail cursor e hm he hb
        simpa [hm] using this
      | some wait =>
        have := hlimited cursor e wait hm he hb
        simpa [hm] using this
  | waiting =>
    simp only []
    split
    · rename_i h0
      exact hreturn hm h0
    · exact hskip
  | returned results err => simpa [hm] using hskip

/-! ## Counting lemmas -/

theorem get_lt {l : List Probe} {g : Nat} {p : Probe} (h : l[g]? = some p) : g < l.length := by
  by_contra hge
  rw [List.getElem?_eq_none (by omega)] at h
  cases h

theorem get_mem {l : List Probe} {g : Nat} {p : Probe} (h : l[g]? = some p) : p ∈ l := by
  rw [List.getElem?_eq_some] at h
  obtain ⟨hlt, rfl⟩ := h
  exact List.getElem_mem hlt

theorem countP_set_of_get (f : Probe → Bool) :
    ∀ (l : List Probe) (g : Nat) (p q : Probe) (bp bq : Bool), l[g]? = some p →
      f p = bp → f q = bq →
      List.countP f (l.set g q) + bp.toNat = List.countP f l + bq.toNat
  | [], g, p, q, _, _, h, _, _ => by simp at h
  | x :: l, 0, p, q, bp, bq, h, hp, hq => by
    simp at h
    subst h
    subst hp
    subst hq
    simp only [List.set_cons_zero, List.countP_cons]
    cases f x <;> cases f q <;> simp
  | x :: l, g + 1, p, q, bp, bq, h, hp, hq => by
    simp at h
    have := countP_set_of_get f l g p q bp bq h hp hq
    simp only [List.set_cons_succ, List.countP_cons]
    omega

theorem countP_pos_of_get (f : Probe → Bool) {l : List Probe} {g : Nat} {p : Probe}
    (h : l[g]? = some p) (hf : f p = true) : 0 < List.countP f l := by
  rw [List.countP_pos_iff]
  exact ⟨p, get_mem h, hf⟩

theorem GateInv.gate_init : GateInv State.init := by
  constructor <;> simp [State.init]

theorem GateInv.gate_stepProbe {b : Backend} {cfg : Config} {s : State} (h : GateInv s) (g : Nat) :
    GateInv (stepProbe b cfg s g) := by
  obtain ⟨h1, h2, h3⟩ := h
  refine stepProbe_elim b cfg s g (P := GateInv) ⟨h1, h2, h3⟩ ?_ ?_ ?_ ?_ ?_ ?_ ?_
  · intro p hp hpc hlt
    have c1 := countP_set_of_get (fun p => holding p.pc) s.probes g p
      { p with pc := if cfg.useDate then .request 0 else .ready Time.zero } false true hp
      (by simp [hpc, holding]) (by cases cfg.useDate <;> simp [holding])
    have c2 := countP_set_of_get (fun p => running p.pc) s.probes g p
      { p with pc := if cfg.useDate then .request 0 else .ready Time.zero } true true hp
      (by simp [hpc, running]) (by cases cfg.useDate <;> simp [running])
    simp only [Bool.toNat_false, Bool.toNat_true] at c1 c2
    constructor <;> simp only [] <;> omega
  · intro p attempt hp hpc
    have c1 := countP_set_of_get (fun p => holding p.pc) s.probes g p
      { p with pc := .check attempt (b.GetConversationHistory g attempt ⟨p.ch.ID, 1⟩).history }
      true true hp (by simp [hpc, holding]) (by simp [holding])
    have c2 := countP_set_of_get (fun p => running p.pc) s.probes g p
      { p with pc := .check attempt (b.GetConversationHistory g attempt ⟨p.ch.ID, 1⟩).history }
      true true hp (by simp [hpc, running]) (by simp [running])
    simp only [Bool.toNat_false, Bool.toNat_true] at c1 c2
    constructor <;> simp only [] <;> omega
  · intro p attempt history e wait hp hpc _ _ _
    have c1 := countP_set_of_get (fun p => holding p.pc) s.probes g p
      { p with pc := .request (attempt + 1) }
      true true hp (by simp [hpc, holding]) (by simp [holding])
    have c2 := countP_set_of_get (fun p => running p.pc) s.probes g p
      { p with pc := .request (attempt + 1) }
      true true hp (by simp [hpc, running]) (by simp [running])
    simp only [Bool.toNat_false, Bool.toNat_true] at c1 c2
    constructor <;> simp only [] <;> omega
  · intro p attempt history lastTime evs hp hpc _ _
    have c1 := countP_set_of_get (fun p => holding p.pc) s.probes g p
      { p with pc := .ready lastTime }
      true true hp (by simp [hpc, holding]) (by simp [holding])
    have c2 := countP_set_of_get (fun p => running p.pc) s.probes g p
      { p with pc := .ready lastTime }
      true true hp (by simp [hpc, running]) (by simp [running])
    simp only [Bool.toNat_false, Bool.toNat_true] at c1 c2
    constructor <;> simp only [] <;> omega
  · intro p attempt history evs hp hpc _
    have c1 := countP_set_of_get (fun p => holding p.pc) s.probes g p
      { p with pc := .done none }
      true false hp (by simp [hpc, holding]) (by simp [holding])
    have c2 := countP_set_of_get (fun p => running p.pc) s.probes g p
      { p with pc := .done none }
      true false hp (by simp [hpc, running]) (by simp [running])
    simp only [Bool.toNat_false, Bool.toNat_true] at c1 c2
    constructor <;> simp only [] <;> omega
  · intro p lastTime hp hpc
    have c1 := countP_set_of_get (fun p => holding p.pc) s.probes g p
      { p with pc := .pacing ⟨p.ch.ID, p.ch.Name, lastTime⟩ }
      true true hp (by simp [hpc, holding]) (by simp [holding])
    have c2 := countP_set_of_get (fun p => running p.pc) s.probes g p
      { p with pc := .pacing ⟨p.ch.ID, p.ch.Name, lastTime⟩ }
      true true hp (by simp [hpc, running]) (by simp [running])
    simp only [Bool.toNat_false, Bool.toNat_true] at c1 c2
    constructor <;> simp only [] <;> omega
  · intro p info hp hpc
    have c1 := countP_set_of_get (fun p => holding p.pc) s.probes g p
      { p with pc := .done (some info) }
      true false hp (by simp [hpc, holding]) (by simp [holding])
    have c2 := countP_set_of_get (fun p => running p.pc) s.probes g p
      { p with pc := .done (some info) }
      true false hp (by simp [hpc, running]) (by simp [running])
    simp only [Bool.toNat_false, Bool.toNat_true] at c1 c2
    constructor <;> simp only [] <;> omega

theorem countP_launched (chs : List Channel) (page : Nat) :
    List.countP (fun p => holding p.pc) (chs.map (fun ch => Probe.mk ch page .blocked)) = 0 ∧
    List.countP (fun p => running p.pc) (chs.map (fun ch => Probe.mk ch page .blocked)) =
      (chs.map (fun ch => Probe.mk ch page .blocked)).length := by
  induction chs with
  | nil => simp
  | cons c chs ih => simp [List.countP_cons, holding, running, ih.1, ih.2]

theorem GateInv.gate_stepMain {b : Backend} {cfg : Config} {s : State} (h : GateInv s) :
    GateInv (stepMain b cfg s) := by
  obtain ⟨h1, h2, h3⟩ := h
  refine stepMain_elim b cfg s (P := GateInv) ⟨h1, h2, h3⟩ ?_ ?_ ?_ ?_
  · intro cursor e wait _ _ _
    exact ⟨h1, h2, h3⟩
  · intro cursor e _ _ _
    exact ⟨h1, h2, h3⟩
  · intro cursor _ _
    have c := countP_launched
      ((b.GetConversations s.calls (listParams cfg cursor)).channels.filter (dispatched cfg)) s.pages
    constructor
    · simp only [List.countP_append, c.1]; omega
    · exact h2
    · simp only [List.countP_append, c.2]; omega
  · intro _ _
    exact ⟨h1, h2, h3⟩

/-! ## `results` holds what the goroutines appended -/

theorem filterMap_set_same {α : Type} (f : Probe → Option α) :
    ∀ (l : List Probe) (g : Nat) (p q : Probe), l[g]? = some p → f q = f p →
      List.filterMap f (l.set g q) = List.filterMap f l
  | [], g, p, q, h, _ => by simp at h
  | x :: l, 0, p, q, h, hf => by
    simp at h
    subst h
    simp [List.filterMap_cons, hf]
  | x :: l, g + 1, p, q, h, hf => by
    simp at h
    have := filterMap_set_same f l g p q h hf
    simp [List.filterMap_cons, this]

theorem filterMap_set_new {α : Type} (f : Probe → Option α) :
    ∀ (l : List Probe) (g : Nat) (p q : Probe) (a : α), l[g]? = some p → f p = none →
      f q = some a → (List.filterMap f (l.set g q)).Perm (List.filterMap f l ++ [a])
  | [], g, p, q, a, h, _, _ => by simp at h
  | x :: l, 0, p, q, a, h, hp, hq => by
    simp at h
    subst h
    simp only [List.set_cons_zero, List.filterMap_cons, hp, hq]
    exact (List.perm_append_singleton a _).symm
  | x :: l, g + 1, p, q, a, h, hp, hq => by
    simp at h
    have ih := filterMap_set_new f l g p q a h hp hq
    simp only [List.set_cons_succ, List.filterMap_cons]
    cases f x with
    | none => exact ih
    | some y => exact List.Perm.cons y ih

theorem ResultsInv.results_init : ResultsInv State.init := by
  simp [ResultsInv, State.init]

theorem ResultsInv.results_stepProbe {b : Backend} {cfg : Config} {s : State} (h : ResultsInv s)
    (g : Nat) : ResultsInv (stepProbe b cfg s g) := by
  unfold ResultsInv at h
  refine stepProbe_elim b cfg s g (P := ResultsInv) h ?_ ?_ ?_ ?_ ?_ ?_ ?_
  · intro p hp hpc _
    unfold ResultsInv
    simp only []
    rw [filterMap_set_same _ _ _ _ _ hp]
    · exact h
    · cases cfg.useDate <;> simp [hpc, appended]
  · intro p attempt hp hpc
    unfold ResultsInv
    simp only []
    rw [filterMap_set_same _ _ _ _ _ hp (by simp [hpc, appended])]
    exact h
  · intro p attempt history e wait hp hpc _ _ _
    unfold ResultsInv
    simp only []
    rw [filterMap_set_same _ _ _ _ _ hp (by simp [hpc, appended])]
    exact h
  · intro p attempt history lastTime evs hp hpc _ _
    unfold ResultsInv
    simp only []
    rw [filterMap_set_same _ _ _ _ _ hp (by simp [hpc, appended])]
    exact h
  · intro p attempt history evs hp hpc _
    unfold ResultsInv
    simp only []
    rw [filterMap_set_same _ _ _ _ _ hp (by simp [hpc, appended])]
    exact h
  · intro p lastTime hp hpc
    unfold ResultsInv
    simp only []
    have := filterMap_set_new (fun p => appended p.pc) s.probes g p
      { p with pc := .pacing ⟨p.ch.ID, p.ch.Name, lastTime⟩ } ⟨p.ch.ID, p.ch.Name, lastTime⟩ hp
      (by simp [hpc, appended]) (by simp [appended])
    exact (List.Perm.append_right _ h).trans this.symm
  · intro p info hp hpc
    unfold ResultsInv
    simp only []
    rw [filterMap_set_same _ _ _ _ _ hp (by simp [hpc, appended])]
    exact h

theorem filterMap_launched (chs : List Channel) (page : Nat) :
    List.filterMap (fun p => appended p.pc) (chs.map (fun ch => Probe.mk ch page .blocked)) = [] := by
  induction chs with
  | nil => simp
  | cons c chs ih => simp [appended]

theorem ResultsInv.results_stepMain {b : Backend} {cfg : Config} {s : State} (h : ResultsInv s) :
    ResultsInv (stepMain b cfg s) := by
  unfold ResultsInv at h
  refine stepMain_elim b cfg s (P := ResultsInv) h ?_ ?_ ?_ ?_
  · intro cursor e wait _ _ _
    exact h
  · intro cursor e _ _ _
    exact h
  · intro cursor _ _
    unfold ResultsInv
    simp only [List.filterMap_append, filterMap_launched, List.append_nil]
    exact h
  · intro _ _
    exact h

/-! ## The goroutine invariant -/

theorem listRequests_append (t u : List Event) :
    listRequests (t ++ u) = listRequests t ++ listRequests u := by
  induction t with
  | nil => rfl
  | cons ev t ih => cases ev <;> simp [listRequests, ih]

theorem historyRequests_append (g : Nat) (t u : List Event) :
    historyRequests g (t ++ u) = historyRequests g t + historyRequests g u := by
  simp [historyRequests, List.countP_append]

theorem listRequests_sleeps {g : Nat} {evs : List Event}
    (h : ∀ ev ∈ evs, ∃ wait, ev = Event.sleep (Thread.probe g) wait) : listRequests evs = [] := by
  induction evs with
  | nil => rfl
  | cons ev evs ih =>
    obtain ⟨w, rfl⟩ := h ev (by simp)
    simp only [listRequests]
    exact ih (fun ev hev => h ev (List.mem_cons_of_mem _ hev))

theorem historyRequests_sleeps {g : Nat} (g1 : Nat) {evs : List Event}
    (h : ∀ ev ∈ evs, ∃ wait, ev = Event.sleep (Thread.probe g) wait) :
    historyRequests g1 evs = 0 := by
  induction evs with
  | nil => rfl
  | cons ev evs ih =>
    obtain ⟨w, rfl⟩ := h ev (by simp)
    have := ih (fun ev hev => h ev (List.mem_cons_of_mem _ hev))
    simpa [historyRequests, List.countP_cons, isHistoryRequestOf] using this

theorem Enumerated.enumerated_mono {b : Backend} {t : List Event} {ch : Channel} (h : Enumerated b t ch)
    (u : List Event) : Enumerated b (t ++ u) ch := by
  obtain ⟨n, params, hn, he, hc⟩ := h
  refine ⟨n, params, ?_, he, hc⟩
  rw [listRequests_append]
  have hlt : n < (listRequests t).length := by
    by_contra hge
    rw [List.getElem?_eq_none (by omega)] at hn
    cases hn
  rw [List.getElem?_append_left hlt]
  exact hn

theorem ProbeOK.probeOK_mono {b : Backend} {cfg : Config} {t : List Event} {g : Nat} {p : Probe}
    (h : ProbeOK b cfg t g p) (u : List Event) (hu : historyRequests g u = 0) :
    ProbeOK b cfg (t ++ u) g p := by
  obtain ⟨h1, h2, h3⟩ := h
  refine ⟨h1, h2.enumerated_mono u, ?_⟩
  rw [historyRequests_append, hu, Nat.add_zero]
  exact h3

theorem get_set_cases {l : List Probe} {g g1 : Nat} {q x : Probe}
    (h : (l.set g q)[g1]? = some x) : (g1 = g ∧ x = q) ∨ (g1 ≠ g ∧ l[g1]? = some x) := by
  rw [List.getElem?_set] at h
  by_cases hg : g = g1
  · subst hg
    left
    by_cases hl : g < l.length
    · simp [hl] at h
      exact ⟨rfl, h.symm⟩
    · simp [hl] at h
  · right
    simp only [hg, if_false] at h
    exact ⟨fun e => hg e.symm, h⟩

theorem historyRequests_nil (g : Nat) : historyRequests g [] = 0 := rfl

theorem historyRequests_request_self (g : Nat) (params : GetConversationHistoryParameters) :
    historyRequests g [Event.historyRequest g params] = 1 := by
  simp [historyRequests, isHistoryRequestOf]

theorem historyRequests_request_other {g g1 : Nat} (h : g1 ≠ g)
    (params : GetConversationHistoryParameters) :
    historyRequests g1 [Event.historyRequest g params] = 0 := by
  simp [historyRequests, isHistoryRequestOf, Ne.symm h]

theorem historyRequests_sleep (g : Nat) (t : Thread) (d : Duration) :
    historyRequests g [Event.sleep t d] = 0 := by
  simp [historyRequests, isHistoryRequestOf]

theorem ProbesInv.probes_init (b : Backend) (cfg : Config) : ProbesInv b cfg State.init := by
  constructor <;> simp [State.init, listRequests, historyRequests]

/-- A goroutine step that moves goroutine `g` to `pc1` and logs `evs`. -/
theorem ProbesInv.update {b : Backend} {cfg : Config} {s : State} (h : ProbesInv b cfg s)
    {g : Nat} {p : Probe} (hp : s.probes[g]? = some p) (pc1 : ProbePC) (evs : List Event)
    (hlist : listRequests evs = [])
    (hother : ∀ g1, g1 ≠ g → historyRequests g1 evs = 0)
    (hreq : ∀ g1 params, Event.historyRequest g1 params ∈ evs →
      cfg.useDate = true ∧ g1 = g ∧ params = ⟨p.ch.ID, 1⟩)
    (hpc : PcOK b cfg g p.ch (historyRequests g s.trace + historyRequests g evs) pc1)
    (s1 : State) (hprobes : s1.probes = s.probes.set g { p with pc := pc1 })
    (htrace : s1.trace = s.trace ++ evs) (hcalls : s1.calls = s.calls) :
    ProbesInv b cfg s1 := by
  obtain ⟨h1, h2, h3, h4⟩ := h
  have hlt := get_lt hp
  constructor
  · rw [hcalls, htrace, listRequests_append, hlist, List.append_nil]
    exact h1
  · intro g1 x hx
    rw [hprobes] at hx
    rw [htrace]
    rcases get_set_cases hx with ⟨rfl, rfl⟩ | ⟨hne, hx⟩
    · obtain ⟨a1, a2, _⟩ := h2 g1 p hp
      refine ⟨a1, a2.enumerated_mono evs, ?_⟩
      rw [historyRequests_append]
      exact hpc
    · exact (h2 g1 x hx).probeOK_mono evs (hother g1 hne)
  · intro g1 hg1
    rw [hprobes, List.length_set] at hg1
    rw [htrace, historyRequests_append, h3 g1 hg1, hother g1 (by omega)]
  · intro g1 params hmem
    rw [htrace, List.mem_append] at hmem
    rw [hprobes]
    rcases hmem with hmem | hmem
    · obtain ⟨hu, x, hx, hparams⟩ := h4 g1 params hmem
      refine ⟨hu, ?_⟩
      by_cases hg : g1 = g
      · subst hg
        rw [hp] at hx
        cases hx
        exact ⟨{ p with pc := pc1 }, by rw [ List.getElem?_set_self hlt], hparams⟩
      · exact ⟨x, by rw [ List.getElem?_set_ne (fun e => hg e.symm)]; exact hx, hparams⟩
    · obtain ⟨hu, rfl, hparams⟩ := hreq g1 params hmem
      exact ⟨hu, { p with pc := pc1 }, by rw [ List.getElem?_set_self hlt], hparams⟩

theorem ProbesInv.probes_stepProbe {b : Backend} {cfg : Config} {s : State} (h : ProbesInv b cfg s)
    (g : Nat) : ProbesInv b cfg (stepProbe b cfg s g) := by
  refine stepProbe_elim b cfg s g (P := ProbesInv b cfg) h ?_ ?_ ?_ ?_ ?_ ?_ ?_
  · intro p hp hpc _
    obtain ⟨_, _, h3⟩ := h.probes_ok g p hp
    rw [hpc] at h3
    simp only [PcOK] at h3
    refine h.update hp _ [] rfl (fun _ _ => rfl) (by simp) ?_ _ rfl (by simp) rfl
    rw [h3]
    cases hu : cfg.useDate
    · simp [PcOK, TimeOK, historyRequests_nil, hu]
    · simp [PcOK, historyRequests_nil, hu]
  · intro p attempt hp hpc
    obtain ⟨_, _, h3⟩ := h.probes_ok g p hp
    rw [hpc] at h3
    obtain ⟨hu, ha, hn⟩ := h3
    refine h.update hp _ [Event.historyRequest g ⟨p.ch.ID, 1⟩] rfl ?_ ?_ ?_ _ rfl rfl rfl
    · intro g1 hne
      exact historyRequests_request_other hne _
    · intro g1 params hmem
      simp at hmem
      exact ⟨hu, hmem.1, hmem.2⟩
    · simp [PcOK, historyRequests_request_self, hu, ha, hn]
  · intro p attempt history e wait hp hpc _ _ hlt
    obtain ⟨_, _, h3⟩ := h.probes_ok g p hp
    rw [hpc] at h3
    obtain ⟨hu, ha, hn, _⟩ := h3
    refine h.update hp _ [Event.sleep (Thread.probe g) wait] rfl ?_ ?_ ?_ _ rfl rfl rfl
    · intro g1 _
      exact historyRequests_sleep _ _ _
    · intro g1 params hmem
      simp at hmem
    · simp [PcOK, historyRequests_sleep, hu, hlt, hn]
  · intro p attempt history lastTime evs hp hpc hal hevs
    obtain ⟨_, _, h3⟩ := h.probes_ok g p hp
    rw [hpc] at h3
    obtain ⟨hu, ha, hn, hh⟩ := h3
    refine h.update hp _ evs (listRequests_sleeps hevs)
      (fun g1 _ => historyRequests_sleeps g1 hevs) ?_ ?_ _ rfl rfl rfl
    · intro g1 params hmem
      obtain ⟨w, hw⟩ := hevs _ hmem
      cases hw
    · rw [historyRequests_sleeps g hevs]
      refine ⟨by omega, ?_⟩
      simp only [TimeOK, hu, if_true]
      exact ⟨attempt, by omega, by rw [← hh]; exact hal⟩
  · intro p attempt history evs hp hpc hevs
    obtain ⟨_, _, h3⟩ := h.probes_ok g p hp
    rw [hpc] at h3
    obtain ⟨hu, ha, hn, hh⟩ := h3
    refine h.update hp _ evs (listRequests_sleeps hevs)
      (fun g1 _ => historyRequests_sleeps g1 hevs) ?_ ?_ _ rfl rfl rfl
    · intro g1 params hmem
      obtain ⟨w, hw⟩ := hevs _ hmem
      cases hw
    · rw [historyRequests_sleeps g hevs]
      exact ⟨hu, by omega⟩
  · intro p lastTime hp hpc
    obtain ⟨_, _, h3⟩ := h.probes_ok g p hp
    rw [hpc] at h3
    obtain ⟨hn, ht⟩ := h3
    refine h.update hp _ [] rfl (fun _ _ => rfl) (by simp) ?_ _ rfl (by simp) rfl
    exact ⟨by simpa [historyRequests_nil] using hn, rfl, rfl, ht⟩
  · intro p info hp hpc
    obtain ⟨_, _, h3⟩ := h.probes_ok g p hp
    rw [hpc] at h3
    obtain ⟨hn, ht⟩ := h3
    refine h.update hp _ [Event.sleep (Thread.probe g) (1 * Second)] rfl ?_ ?_ ?_ _ rfl rfl rfl
    · intro g1 _
      exact historyRequests_sleep _ _ _
    · intro g1 params hmem
      simp at hmem
    · exact ⟨by simpa [historyRequests_sleep] using hn, ht⟩

/-- A step of the pagination loop that logs `evs` and launches `launched`. -/
theorem ProbesInv.extend {b : Backend} {cfg : Config} {s : State} (h : ProbesInv b cfg s)
    (evs : List Event) (launched : List Probe)
    (hhist : ∀ g, historyRequests g evs = 0)
    (hnone : ∀ g params, Event.historyRequest g params ∉ evs)
    (hlaunched : ∀ p ∈ launched,
      dispatched cfg p.ch = true ∧ Enumerated b (s.trace ++ evs) p.ch ∧ p.pc = .blocked)
    (s1 : State) (hprobes : s1.probes = s.probes ++ launched)
    (htrace : s1.trace = s.trace ++ evs)
    (hcalls : s1.calls = s.calls + (listRequests evs).length) :
    ProbesInv b cfg s1 := by
  obtain ⟨h1, h2, h3, h4⟩ := h
  constructor
  · rw [hcalls, htrace, listRequests_append, List.length_append, h1]
  · intro g x hx
    rw [hprobes] at hx
    rw [htrace]
    by_cases hg : g < s.probes.length
    · rw [List.getElem?_append_left hg] at hx
      exact (h2 g x hx).probeOK_mono evs (hhist g)
    · rw [List.getElem?_append_right (by omega)] at hx
      obtain ⟨a1, a2, a3⟩ := hlaunched x (List.mem_iff_getElem?.2 ⟨_, hx⟩)
      refine ⟨a1, a2, ?_⟩
      rw [a3, historyRequests_append, h3 g (by omega), hhist g]
      rfl
  · intro g hg
    rw [hprobes, List.length_append] at hg
    rw [htrace, historyRequests_append, h3 g (by omega), hhist g]
  · intro g params hmem
    rw [htrace, List.mem_append] at hmem
    rcases hmem with hmem | hmem
    · obtain ⟨hu, x, hx, hparams⟩ := h4 g params hmem
      refine ⟨hu, x, ?_, hparams⟩
      rw [hprobes, List.getElem?_append_left (get_lt hx)]
      exact hx
    · exact absurd hmem (hnone g params)

theorem ProbesInv.probes_stepMain {b : Backend} {cfg : Config} {s : State} (h : ProbesInv b cfg s) :
    ProbesInv b cfg (stepMain b cfg s) := by
  refine stepMain_elim b cfg s (P := ProbesInv b cfg) h ?_ ?_ ?_ ?_
  · intro cursor e wait _ _ _
    refine h.extend
      ([Event.listRequest (listParams cfg cursor)] ++ [Event.sleep Thread.main wait]) []
      ?_ ?_ ?_ _ (by simp) (by simp) (by simp [listRequests])
    · intro g
      simp [historyRequests, isHistoryRequestOf]
    · intro g params
      simp
    · simp
  · intro cursor e _ _ _
    refine h.extend [Event.listRequest (listParams cfg cursor)] []
      ?_ ?_ ?_ _ (by simp) (by simp) (by simp [listRequests])
    · intro g
      simp [historyRequests, isHistoryRequestOf]
    · intro g params
      simp
    · simp
  · intro cursor _ herr
    refine h.extend [Event.listRequest (listParams cfg cursor)] _
      ?_ ?_ ?_ _ rfl (by simp) (by simp [listRequests])
    · intro g
      simp [historyRequests, isHistoryRequestOf]
    · intro g params
      simp
    · intro p hmem
      rw [List.mem_map] at hmem
      obtain ⟨ch, hch, rfl⟩ := hmem
      rw [List.mem_filter] at hch
      refine ⟨hch.2, ⟨s.calls, listParams cfg cursor, ?_, herr, hch.1⟩, rfl⟩
      rw [listRequests_append, h.calls_eq, List.getElem?_append_right (le_refl _)]
      simp [listRequests]
  · intro _ _
    exact ⟨h.calls_eq, h.probes_ok, h.absent, h.requests_ok⟩

/-! ## The pagination invariant -/

theorem pageBackoff_eq_none (e : Err) :
    pageBackoff e = none ↔
      stringsContains e.description "rate_limited" = false ∧ e.RetryAfter = none := by
  unfold pageBackoff
  cases hc : stringsContains e.description "rate_limited" <;> cases hr : e.RetryAfter <;> simp

theorem stepProbe_main (b : Backend) (cfg : Config) (s : State) (g : Nat) :
    (stepProbe b cfg s g).main = s.main ∧ (stepProbe b cfg s g).calls = s.calls ∧
      (stepProbe b cfg s g).pages = s.pages ∧
      listRequests (stepProbe b cfg s g).trace = listRequests s.trace := by
  refine stepProbe_elim b cfg s g
    (P := fun s1 => s1.main = s.main ∧ s1.calls = s.calls ∧ s1.pages = s.pages ∧
      listRequests s1.trace = listRequests s.trace)
    ⟨rfl, rfl, rfl, rfl⟩ ?_ ?_ ?_ ?_ ?_ ?_ ?_
  · intro p _ _ _
    exact ⟨rfl, rfl, rfl, rfl⟩
  · intro p attempt _ _
    exact ⟨rfl, rfl, rfl, by simp [listRequests_append, listRequests]⟩
  · intro p attempt history e wait _ _ _ _ _
    exact ⟨rfl, rfl, rfl, by simp [listRequests_append, listRequests]⟩
  · intro p attempt history lastTime evs _ _ _ hevs
    exact ⟨rfl, rfl, rfl, by simp [listRequests_append, listRequests_sleeps hevs]⟩
  · intro p attempt history evs _ _ hevs
    exact ⟨rfl, rfl, rfl, by simp [listRequests_append, listRequests_sleeps hevs]⟩
  · intro p lastTime _ _
    exact ⟨rfl, rfl, rfl, rfl⟩
  · intro p info _ _
    exact ⟨rfl, rfl, rfl, by simp [listRequests_append, listRequests]⟩

/-- Once the wait group is at zero no goroutine moves. -/
theorem stepProbe_idle {b : Backend} {cfg : Config} {s : State} (hg : GateInv s)
    (hwg : s.wg = 0) (g : Nat) : stepProbe b cfg s g = s := by
  have hall : ∀ p, s.probes[g]? = some p → running p.pc = false := by
    intro p hp
    by_contra hrun
    have := countP_pos_of_get (fun p => running p.pc) hp (by simpa using hrun)
    rw [← hg.wg_eq] at this
    omega
  refine stepProbe_elim b cfg s g (P := fun s1 => s1 = s) rfl ?_ ?_ ?_ ?_ ?_ ?_ ?_
  · intro p hp hpc _
    have := hall p hp
    simp [hpc, running] at this
  · intro p attempt hp hpc
    have := hall p hp
    simp [hpc, running] at this
  · intro p attempt history e wait hp hpc _ _ _
    have := hall p hp
    simp [hpc, running] at this
  · intro p attempt history lastTime evs hp hpc _ _
    have := hall p hp
    simp [hpc, running] at this
  · intro p attempt history evs hp hpc _
    have := hall p hp
    simp [hpc, running] at this
  · intro p lastTime hp hpc
    have := hall p hp
    simp [hpc, running] at this
  · intro p info hp hpc
    have := hall p hp
    simp [hpc, running] at this

theorem MainInv.main_init (b : Backend) : MainInv b State.init := by
  constructor
  · intro res w h
    simp [State.init] at h
  · intro n e h
    obtain ⟨params, hp, _⟩ := h
    simp [State.init, listRequests] at hp
  · intro res h
    simp [State.init] at h

theorem MainInv.main_stepProbe {b : Backend} {cfg : Config} {s : State} (h : MainInv b s)
    (hg : GateInv s) (g : Nat) : MainInv b (stepProbe b cfg s g) := by
  obtain ⟨m1, m2, m3, m4⟩ := stepProbe_main b cfg s g
  obtain ⟨h1, h2, h3⟩ := h
  constructor
  · intro res w hm
    rw [m1] at hm
    rw [m2]
    obtain ⟨a1, a2, a3, a4⟩ := h1 res w hm
    refine ⟨a1, a2, a3, ?_⟩
    unfold FatalRequest at a4 ⊢
    rw [m4]
    exact a4
  · intro n e hf
    unfold FatalRequest at hf
    rw [m4] at hf
    rw [m1, m2]
    exact h2 n e hf
  · intro res hm
    rw [m1] at hm
    obtain ⟨a1, a2⟩ := h3 res hm
    rw [stepProbe_idle hg a2 g]
    exact ⟨a1, a2⟩

theorem FatalRequest.lt {b : Backend} {t : List Event} {n : Nat} {e : Err}
    (h : FatalRequest b t n e) : n < (listRequests t).length := by
  obtain ⟨params, hp, _⟩ := h
  by_contra hge
  rw [List.getElem?_eq_none (by omega)] at hp
  cases hp

/-- While the loop is listing, a fatal request of the extended log is the new one. -/
theorem MainInv.fatal_new {b : Backend} {cfg : Config} {s : State} (h : MainInv b s)
    (hcalls : s.calls = (listRequests s.trace).length) {cursor : String}
    (hm : s.main = .listing cursor) {u : List Event}
    (hlist : listRequests (s.trace ++ u) = listRequests s.trace ++ [listParams cfg cursor])
    {n : Nat} {e1 : Err} (hf : FatalRequest b (s.trace ++ u) n e1) :
    n = s.calls ∧ (b.GetConversations s.calls (listParams cfg cursor)).err = some e1 ∧
      stringsContains e1.description "rate_limited" = false ∧ e1.RetryAfter = none := by
  have hlt := hf.lt
  rw [hlist, List.length_append, List.length_singleton] at hlt
  by_cases hn : n < (listRequests s.trace).length
  · exfalso
    have hold : FatalRequest b s.trace n e1 := by
      obtain ⟨params, hq, rest⟩ := hf
      rw [hlist, List.getElem?_append_left hn] at hq
      exact ⟨params, hq, rest⟩
    have := (h.fatal_last n e1 hold).2
    rw [hm] at this
    cases this
  · have hn2 : n = s.calls := by omega
    subst hn2
    obtain ⟨params, hq, he, hc, hr⟩ := hf
    rw [hlist, hcalls, List.getElem?_append_right (le_refl _)] at hq
    simp at hq
    subst hq
    exact ⟨rfl, he, hc, hr⟩

theorem MainInv.main_stepMain {b : Backend} {cfg : Config} {s : State} (h : MainInv b s)
    (hp : ProbesInv b cfg s) : MainInv b (stepMain b cfg s) := by
  have hcalls := hp.calls_eq
  refine stepMain_elim b cfg s (P := MainInv b) h ?_ ?_ ?_ ?_
  · intro cursor e wait hm herr hb
    have hlist : listRequests (s.trace ++ ([Event.listRequest (listParams cfg cursor)] ++
        [Event.sleep Thread.main wait])) = listRequests s.trace ++ [listParams cfg cursor] := by
      simp [listRequests_append, listRequests]
    constructor
    · intro res w hret
      have hret2 : s.main = .returned res (some w) := hret
      rw [hm] at hret2
      cases hret2
    · intro n e1 hf
      exfalso
      have hf2 : FatalRequest b (s.trace ++ ([Event.listRequest (listParams cfg cursor)] ++
          [Event.sleep Thread.main wait])) n e1 := by
        simpa using hf
      obtain ⟨_, he, hc, hr⟩ := h.fatal_new hcalls hm hlist hf2
      rw [herr] at he
      cases he
      rw [(pageBackoff_eq_none e).2 ⟨hc, hr⟩] at hb
      cases hb
    · intro res hret
      have hret2 : s.main = .returned res none := hret
      rw [hm] at hret2
      cases hret2
  · intro cursor e hm herr hb
    have hlist : listRequests (s.trace ++ [Event.listRequest (listParams cfg cursor)]) =
        listRequests s.trace ++ [listParams cfg cursor] := by
      simp [listRequests_append, listRequests]
    have hfatal : FatalRequest b (s.trace ++ [Event.listRequest (listParams cfg cursor)])
        s.calls e := by
      refine ⟨listParams cfg cursor, ?_, herr, (pageBackoff_eq_none e).1 hb⟩
      rw [hlist, hcalls, List.getElem?_append_right (le_refl _)]
      simp
    constructor
    · intro res w hret
      simp at hret
      obtain ⟨rfl, rfl⟩ := hret
      exact ⟨rfl, rfl, by simp, by simpa using hfatal⟩
    · intro n e1 hf
      obtain ⟨hn, he, _, _⟩ := h.fatal_new hcalls hm hlist hf
      rw [herr] at he
      cases he
      exact ⟨by simp [hn], rfl⟩
    · intro res hret
      simp at hret
  · intro cursor hm herr
    have hlist : listRequests (s.trace ++ [Event.listRequest (listParams cfg cursor)]) =
        listRequests s.trace ++ [listParams cfg cursor] := by
      simp [listRequests_append, listRequests]
    constructor
    · intro res w hret
      simp only [] at hret
      split at hret <;> cases hret
    · intro n e1 hf
      exfalso
      obtain ⟨_, he, _, _⟩ := h.fatal_new hcalls hm hlist hf
      rw [herr] at he
      cases he
    · intro res hret
      simp only [] at hret
      split at hret <;> cases hret
  · intro hm hwg
    constructor
    · intro res w hret
      simp at hret
    · intro n e1 hf
      exfalso
      have := (h.fatal_last n e1 hf).2
      rw [hm] at this
      cases this
    · intro res hret
      simp at hret
      exact ⟨hret.symm, hwg⟩

/-! ## Every reachable state satisfies the invariant -/

theorem Inv.inv_init (b : Backend) (cfg : Config) : Inv b cfg State.init :=
  ⟨ProbesInv.probes_init b cfg, GateInv.gate_init, ResultsInv.results_init, MainInv.main_init b⟩

theorem Inv.inv_step {b : Backend} {cfg : Config} {s : State} (h : Inv b cfg s) (t : Thread) :
    Inv b cfg (step b cfg s t) := by
  cases t with
  | main =>
    exact ⟨h.probes.probes_stepMain, h.gate.gate_stepMain, h.results.results_stepMain, h.main.main_stepMain h.probes⟩
  | probe g =>
    exact ⟨h.probes.probes_stepProbe g, h.gate.gate_stepProbe g, h.results.results_stepProbe g,
      h.main.main_stepProbe h.gate g⟩

theorem Inv.inv_run {b : Backend} {cfg : Config} (sched : List Thread) :
    ∀ {s : State}, Inv b cfg s → Inv b cfg (run b cfg sched s) := by
  induction sched with
  | nil => intro s h; exact h
  | cons t sched ih => intro s h; exact ih (h.inv_step t)

theorem inv_reachable (b : Backend) (cfg : Config) (sched : List Thread) :
    Inv b cfg (run b cfg sched State.init) :=
  (Inv.inv_init b cfg).inv_run sched

theorem run_append (b : Backend) (cfg : Config) (sched more : List Thread) (s : State) :
    run b cfg (sched ++ more) s = run b cfg more (run b cfg sched s) := by
  simp [run, List.foldl_append]

theorem getFilteredChannels_eq_some {b : Backend} {cfg : Config} {sched : List Thread}
    {res : List ChannelInfo} {err : Option WrappedErr} :
    getFilteredChannels b cfg sched = some (res, err) ↔
      (run b cfg sched State.init).main = .returned res err := by
  unfold getFilteredChannels
  cases h : (run b cfg sched State.init).main <;> simp

theorem dispatched_iff (cfg : Config) (ch : Channel) :
    dispatched cfg ch = true ↔
      ch.IsMember = true ∧ ch.Name ∉ cfg.skipChannels ∧
        (cfg.keyword ≠ "" → cfg.keyword.toList <:+: ch.Name.toList) := by
  unfold dispatched stringsContains
  rw [← containsChars_iff]
  cases hm : ch.IsMember <;> cases hs : cfg.skipChannels.contains ch.Name <;>
    cases hc : containsChars ch.Name.toList cfg.keyword.toList <;>
    by_cases hk : cfg.keyword = "" <;> simp_all

theorem afterLoop_some {b : Backend} {cfg : Config}
    {history : Option GetConversationHistoryResponse} {t : Time}
    (h : afterLoop b cfg history = some t) :
    t.After cfg.cutoff = false ∧
      ∃ r m ms sec, history = some r ∧ r.Messages = m :: ms ∧
        b.timestampSeconds m.Timestamp = some sec ∧ t = Time.Unix sec := by
  unfold afterLoop at h
  cases history with
  | none => simp at h
  | some r =>
    cases hm : r.Messages with
    | nil => simp [hm] at h
    | cons m ms =>
      cases hs : b.timestampSeconds m.Timestamp with
      | none => simp [hm, hs] at h
      | some sec =>
        simp only [hm, hs] at h
        split at h
        · cases h
        · rename_i hafter
          cases h
          exact ⟨by simpa using hafter, r, m, ms, sec, rfl, hm, hs, rfl⟩

theorem PcOK.requests_le {b : Backend} {cfg : Config} {g : Nat} {ch : Channel} {n : Nat}
    {pc : ProbePC} (h : PcOK b cfg g ch n pc) : n ≤ 2 := by
  cases pc with
  | blocked => simp only [PcOK] at h; omega
  | request a => simp only [PcOK] at h; omega
  | check a hh => simp only [PcOK] at h; omega
  | ready t => exact h.1
  | pacing i => exact h.1
  | done out =>
    cases out with
    | none => exact h.2
    | some i => exact h.1

/-- What a returned list without error contains. -/
theorem returned_mem {b : Backend} {cfg : Config} {s : State} (h : Inv b cfg s)
    {res : List ChannelInfo} (hm : s.main = .returned res none) {info : ChannelInfo}
    (hi : info ∈ res) :
    ∃ g p, s.probes[g]? = some p ∧ appended p.pc = some info ∧ ProbeOK b cfg s.trace g p ∧
      InfoOK b cfg g p.ch (historyRequests g s.trace) info := by
  obtain ⟨hres, _⟩ := h.main.returned_ok res hm
  subst hres
  have hperm : s.results.Perm _ := h.results
  have hi2 := hperm.mem_iff.1 hi
  rw [List.mem_filterMap] at hi2
  obtain ⟨p, hp, hap⟩ := hi2
  obtain ⟨g, hg⟩ := List.mem_iff_getElem?.1 hp
  have hok := h.probes.probes_ok g p hg
  refine ⟨g, p, hg, hap, hok, ?_⟩
  obtain ⟨_, _, hpc⟩ := hok
  cases hpcv : p.pc with
  | blocked => simp [hpcv, appended] at hap
  | request a => simp [hpcv, appended] at hap
  | check a hh => simp [hpcv, appended] at hap
  | ready t => simp [hpcv, appended] at hap
  | pacing i =>
    simp [hpcv, appended] at hap
    subst hap
    rw [hpcv] at hpc
    exact hpc.2
  | done out =>
    simp [hpcv, appended] at hap
    subst hap
    rw [hpcv] at hpc
    exact hpc.2

/-! ## Claims about the returned list -/

/-- C1, as amended: with the date filter on, every entry of the returned list has a
`LastSeen` that is not after the cutoff (it may equal the cutoff), and `LastSeen` is
`time.Unix` of the whole seconds of the first message of a history response that the
entry's goroutine received. -/
theorem C1_lastSeen_not_after_cutoff (b : Backend) (cfg : Config) (sched : List Thread)
    (res : List ChannelInfo) (err : Option WrappedErr) (hdate : cfg.useDate = true)
    (hret : getFilteredChannels b cfg sched = some (res, err)) :
    ∀ info ∈ res, info.LastSeen.After cfg.cutoff = false ∧
      ∃ g a r m ms sec, a < 2 ∧
        (b.GetConversationHistory g a ⟨info.ID, 1⟩).history = some r ∧
        r.Messages = m :: ms ∧ b.timestampSeconds m.Timestamp = some sec ∧
        info.LastSeen = Time.Unix sec := by
  intro info hi
  have hinv := inv_reachable b cfg sched
  rw [getFilteredChannels_eq_some] at hret
  cases err with
  | some w =>
    obtain ⟨hnil, _⟩ := hinv.main.failed res w hret
    subst hnil
    cases hi
  | none =>
    obtain ⟨g, p, _, _, ⟨_, _, hpc⟩, hid, _, htime⟩ := returned_mem hinv hret hi
    simp only [TimeOK, hdate, if_true] at htime
    obtain ⟨a, ha, hal⟩ := htime
    have hle := hpc.requests_le
    obtain ⟨hafter, r, m, ms, sec, h1, h2, h3, h4⟩ := afterLoop_some hal
    exact ⟨hafter, g, a, r, m, ms, sec, by omega, by rw [hid]; exact h1, h2, h3, h4⟩

/-- C1 fails as stated: with the cutoff at the very second of the last message, the
entry is returned although its `LastSeen` equals the cutoff and so is not before it. -/
theorem C1_counterexample_at_cutoff :
    boundaryConfig.useDate = true ∧
    getFilteredChannels demoBackend boundaryConfig serialSchedule =
      some ([⟨"C1", "alpha", Time.Unix 50⟩], none) ∧
    (Time.Unix 50).Before boundaryConfig.cutoff = false ∧
    Time.Unix 50 = boundaryConfig.cutoff := by
  decide

/-- C1, amended, on the sample run with the cutoff at the second of the message. -/
theorem C1_witness :
    boundaryConfig.useDate = true ∧
    getFilteredChannels demoBackend boundaryConfig serialSchedule =
      some ([⟨"C1", "alpha", Time.Unix 50⟩], none) ∧
    ∀ info ∈ [(⟨"C1", "alpha", Time.Unix 50⟩ : ChannelInfo)],
      info.LastSeen.After boundaryConfig.cutoff = false ∧
      ∃ g a r m ms sec, a < 2 ∧
        (demoBackend.GetConversationHistory g a ⟨info.ID, 1⟩).history = some r ∧
        r.Messages = m :: ms ∧ demoBackend.timestampSeconds m.Timestamp = some sec ∧
        info.LastSeen = Time.Unix sec :=
  ⟨by decide, by decide,
    C1_lastSeen_not_after_cutoff demoBackend boundaryConfig serialSchedule _ none (by decide)
      (by decide)⟩

/-- C2: every entry of the returned list has the ID and the name of a channel of a
page that a successful page request of the run returned, and that channel is a
member, its name is not a key of `skipChannels`, and its name contains the keyword
as a substring when the keyword is not empty. -/
theorem C2_returned_entries_pass_filters (b : Backend) (cfg : Config) (sched : List Thread)
    (res : List ChannelInfo) (err : Option WrappedErr)
    (hret : getFilteredChannels b cfg sched = some (res, err)) :
    ∀ info ∈ res, ∃ ch, Enumerated b (run b cfg sched State.init).trace ch ∧
      ch.ID = info.ID ∧ ch.Name = info.Name ∧ ch.IsMember = true ∧
      ch.Name ∉ cfg.skipChannels ∧
      (cfg.keyword ≠ "" → cfg.keyword.toList <:+: ch.Name.toList) := by
  intro info hi
  have hinv := inv_reachable b cfg sched
  rw [getFilteredChannels_eq_some] at hret
  cases err with
  | some w =>
    obtain ⟨hnil, _⟩ := hinv.main.failed res w hret
    subst hnil
    cases hi
  | none =>
    obtain ⟨g, p, _, _, ⟨hd, hen, _⟩, hid, hname, _⟩ := returned_mem hinv hret hi
    obtain ⟨d1, d2, d3⟩ := (dispatched_iff cfg p.ch).1 hd
    exact ⟨p.ch, hen, hid.symm, hname.symm, d1, d2, d3⟩

/-- C2 on the sample run. -/
theorem C2_witness :
    getFilteredChannels demoBackend demoConfig serialSchedule =
      some ([⟨"C1", "alpha", Time.Unix 50⟩], none) ∧
    ∀ info ∈ [(⟨"C1", "alpha", Time.Unix 50⟩ : ChannelInfo)],
      ∃ ch, Enumerated demoBackend (run demoBackend demoConfig serialSchedule State.init).trace ch ∧
        ch.ID = info.ID ∧ ch.Name = info.Name ∧ ch.IsMember = true ∧
        ch.Name ∉ demoConfig.skipChannels ∧
        (demoConfig.keyword ≠ "" → demoConfig.keyword.toList <:+: ch.Name.toList) :=
  ⟨by decide,
    C2_returned_entries_pass_filters demoBackend demoConfig serialSchedule _ none (by decide)⟩

/-- C7: under every schedule, `getFilteredChannels` returns a non-nil error exactly when
some page request of the run failed with an error that is not a rate-limit signal.
That request is then the last page request of the run (it is not retried and no
further page is requested), the returned error wraps its error with the text
"error listing conversations: ", and the returned list is nil. -/
theorem C7_error_iff_fatal_page_request (b : Backend) (cfg : Config) (sched : List Thread) :
    (∀ res w, getFilteredChannels b cfg sched = some (res, some w) →
      res = [] ∧ w.message = "error listing conversations: " ∧
        ∃ n, FatalRequest b (run b cfg sched State.init).trace n w.cause ∧
          n + 1 = (listRequests (run b cfg sched State.init).trace).length) ∧
    (∀ n e, FatalRequest b (run b cfg sched State.init).trace n e →
      getFilteredChannels b cfg sched =
        some ([], some ⟨"error listing conversations: ", e⟩) ∧
      n + 1 = (listRequests (run b cfg sched State.init).trace).length) := by
  have hinv := inv_reachable b cfg sched
  constructor
  · intro res w hret
    rw [getFilteredChannels_eq_some] at hret
    obtain ⟨h1, h2, h3, h4⟩ := hinv.main.failed res w hret
    refine ⟨h1, h2, (run b cfg sched State.init).calls - 1, h4, ?_⟩
    rw [← hinv.probes.calls_eq]
    omega
  · intro n e hf
    obtain ⟨h1, h2⟩ := hinv.main.fatal_last n e hf
    rw [getFilteredChannels_eq_some]
    exact ⟨h2, by rw [← hinv.probes.calls_eq]; exact h1⟩

/-- C7 on a run whose second page request fails with `invalid_auth`. -/
theorem C7_witness :
    getFilteredChannels failingBackend demoConfig [.main, .main] =
      some ([], some ⟨"error listing conversations: ", ⟨"invalid_auth", none⟩⟩) ∧
    ([] : List ChannelInfo) = [] ∧
    (⟨"error listing conversations: ", ⟨"invalid_auth", none⟩⟩ : WrappedErr).message =
      "error listing conversations: " ∧
    ∃ n, FatalRequest failingBackend (run failingBackend demoConfig [.main, .main] State.init).trace
        n (⟨"error listing conversations: ", ⟨"invalid_auth", none⟩⟩ : WrappedErr).cause ∧
      n + 1 = (listRequests (run failingBackend demoConfig [.main, .main] State.init).trace).length :=
  ⟨by decide,
    (C7_error_iff_fatal_page_request failingBackend demoConfig [.main, .main]).1 [] _ (by decide)⟩

/-- A goroutine issues a history request only while it holds a slot. -/
theorem request_while_holding (b : Backend) (cfg : Config) (s : State) (g : Nat)
    (h : historyRequests g (stepProbe b cfg s g).trace ≠ historyRequests g s.trace) :
    ∃ p, s.probes[g]? = some p ∧ holding p.pc = true := by
  revert h
  refine stepProbe_elim b cfg s g
    (P := fun s1 => historyRequests g s1.trace ≠ historyRequests g s.trace →
      ∃ p, s.probes[g]? = some p ∧ holding p.pc = true)
    (fun h => absurd rfl h) ?_ ?_ ?_ ?_ ?_ ?_ ?_
  · intro p _ _ _ h
    exact absurd rfl h
  · intro p attempt hp hpc _
    exact ⟨p, hp, by simp [hpc, holding]⟩
  · intro p attempt history e wait hp hpc _ _ _ _
    exact ⟨p, hp, by simp [hpc, holding]⟩
  · intro p attempt history lastTime evs hp hpc _ _ _
    exact ⟨p, hp, by simp [hpc, holding]⟩
  · intro p attempt history evs hp hpc _ _
    exact ⟨p, hp, by simp [hpc, holding]⟩
  · intro p lastTime hp hpc _
    exact ⟨p, hp, by simp [hpc, holding]⟩
  · intro p info hp hpc _
    exact ⟨p, hp, by simp [hpc, holding]⟩

/-- C8: in every reachable state at most 5 goroutines hold a slot of `semaphore`; the
number of items in `semaphore` is the number of goroutines between their acquisition
and their return, so a goroutine that has returned (having appended, dropped its
channel or failed) has given its slot back; a goroutine that has issued a history
request has acquired its slot before; and a step that issues a history request is
taken by a goroutine that holds a slot. -/
theorem C8_at_most_five_hold_the_gate (b : Backend) (cfg : Config) (sched : List Thread) :
    (run b cfg sched State.init).probes.countP (fun p => holding p.pc) ≤ 5 ∧
    (run b cfg sched State.init).semaphore =
      (run b cfg sched State.init).probes.countP (fun p => holding p.pc) ∧
    (∀ g params, Event.historyRequest g params ∈ (run b cfg sched State.init).trace →
      ∃ p, (run b cfg sched State.init).probes[g]? = some p ∧ p.pc ≠ .blocked) ∧
    (∀ g, historyRequests g (run b cfg (sched ++ [Thread.probe g]) State.init).trace ≠
        historyRequests g (run b cfg sched State.init).trace →
      ∃ p, (run b cfg sched State.init).probes[g]? = some p ∧ holding p.pc = true) := by
  have hinv := inv_reachable b cfg sched
  refine ⟨?_, hinv.gate.sem_eq, ?_, ?_⟩
  · rw [← hinv.gate.sem_eq]
    exact hinv.gate.sem_le
  · intro g params hmem
    obtain ⟨_, p, hp, _⟩ := hinv.probes.requests_ok g params hmem
    refine ⟨p, hp, ?_⟩
    intro hpc
    obtain ⟨_, _, hok⟩ := hinv.probes.probes_ok g p hp
    rw [hpc] at hok
    have hpos : 0 < historyRequests g (run b cfg sched State.init).trace := by
      unfold historyRequests
      rw [List.countP_pos_iff]
      exact ⟨_, hmem, by simp [isHistoryRequestOf]⟩
    have : historyRequests g (run b cfg sched State.init).trace = 0 := hok
    omega
  · intro g h
    rw [run_append] at h
    exact request_while_holding b cfg _ g h

/-! ## Backoff durations -/

/-- C9 fails on the code: a rate-limit error that suggests 3 seconds carries
`RetryAfter = 3 * time.Second`, and both call sites multiply it by `time.Second`
once more, so the sleep they perform lasts 3000000000 seconds and not 3; for a
suggestion of 10 seconds the product overflows `int64` to a negative duration and
the sleep is the fallback of 30 seconds. -/
theorem C9_suggested_delay_multiplied_twice :
    stringsContains "slack rate limit exceeded, retry after 3s" "rate_limited" = false ∧
    (run suggestingBackend demoConfig [.main] State.init).trace =
      [Event.listRequest (listParams demoConfig ""),
        Event.sleep Thread.main (3000000000 * Second)] ∧
    (run suggestingBackend demoConfig [.main, .main, .probe 0, .probe 0, .probe 0]
        State.init).trace =
      [Event.listRequest (listParams demoConfig ""),
        Event.sleep Thread.main (3000000000 * Second),
        Event.listRequest (listParams demoConfig ""),
        Event.historyRequest 0 ⟨"C1", 1⟩,
        Event.sleep (Thread.probe 0) (3000000000 * Second)] ∧
    3000000000 * Second ≠ 3 * Second ∧
    pageBackoff ⟨"slack rate limit exceeded, retry after 10s", some (10 * Second)⟩ =
      some (30 * Second) ∧
    probeBackoff ⟨"slack rate limit exceeded, retry after 10s", some (10 * Second)⟩ =
      some (30 * Second) ∧
    30 * Second ≠ 10 * Second := by
  decide

/-! ## Flag validation -/

/-- C10 fails on the code: `--days=-1` without `--keyword` passes the test of
main.go:117, and `getFilteredChannels` is called with an empty keyword and
`useDate = false`, so it returns every member channel that is not skipped. -/
theorem C10_negative_days_pass_unfiltered :
    mainArguments (-1) "" = some ("", false) ∧
    getFilteredChannels demoBackend
      { skipChannels := ["general"], cutoff := Time.Unix 100, keyword := "", useDate := false,
        types := ["public_channel", "private_channel"] }
      [.main, .probe 0, .probe 0, .probe 0, .probe 1, .probe 1, .probe 1, .main] =
      some ([⟨"C1", "alpha", Time.zero⟩, ⟨"C2", "beta", Time.zero⟩], none) := by
  decide

/-! ## The data race on `err` -/

/-- C4 fails on the code: the history request for `alpha` succeeds with a message
stamped before the cutoff, and under the serial schedule `alpha` is returned; under
the schedule where the goroutine of `beta` assigns the shared `err` between the
assignment and the test of the goroutine of `alpha`, `alpha` is dropped. -/
theorem C4_race_drops_qualifying_channel :
    demoConfig.useDate = true ∧
    demoBackend.GetConversationHistory 0 0 ⟨"C1", 1⟩ = ⟨some ⟨[⟨"50.000200"⟩]⟩, none⟩ ∧
    demoBackend.timestampSeconds "50.000200" = some 50 ∧
    (Time.Unix 50).Before demoConfig.cutoff = true ∧
    getFilteredChannels demoBackend demoConfig serialSchedule =
      some ([⟨"C1", "alpha", Time.Unix 50⟩], none) ∧
    getFilteredChannels demoBackend demoConfig racySchedule = some ([], none) := by
  decide

/-! ## Retrying a rate-limited page request -/

theorem pageBackoff_of_signal {e : Err} (h : isRateLimitSignal e = true) :
    ∃ wait, pageBackoff e = some wait := by
  cases hb : pageBackoff e with
  | some wait => exact ⟨wait, rfl⟩
  | none =>
    obtain ⟨h1, h2⟩ := (pageBackoff_eq_none e).1 hb
    simp [isRateLimitSignal, h1, h2] at h

theorem mainSleeps_append (t u : List Event) : mainSleeps (t ++ u) = mainSleeps t + mainSleeps u := by
  simp [mainSleeps, List.countP_append]

theorem mainSleeps_sleeps {g : Nat} {evs : List Event}
    (h : ∀ ev ∈ evs, ∃ wait, ev = Event.sleep (Thread.probe g) wait) : mainSleeps evs = 0 := by
  induction evs with
  | nil => rfl
  | cons ev evs ih =>
    obtain ⟨w, rfl⟩ := h ev (by simp)
    have := ih (fun ev hev => h ev (List.mem_cons_of_mem _ hev))
    simpa [mainSleeps, List.countP_cons, isMainSleep] using this

theorem map_ch_set {l : List Probe} {g : Nat} {p : Probe} (h : l[g]? = some p) (pc : ProbePC) :
    (l.set g { p with pc := pc }).map (fun p => p.ch) = l.map (fun p => p.ch) := by
  apply List.ext_getElem?
  intro i
  simp only [List.getElem?_map, List.getElem?_set]
  by_cases hi : g = i
  · subst hi
    simp [h, get_lt h]
  · simp [hi]

/-- A goroutine step leaves the variables of the pagination loop alone. -/
theorem stepProbe_view (b : Backend) (cfg : Config) (s : State) (g : Nat) :
    mainSleeps (stepProbe b cfg s g).trace = mainSleeps s.trace ∧
      (stepProbe b cfg s g).probes.map (fun p => p.ch) = s.probes.map (fun p => p.ch) := by
  refine stepProbe_elim b cfg s g
    (P := fun s1 => mainSleeps s1.trace = mainSleeps s.trace ∧
      s1.probes.map (fun p => p.ch) = s.probes.map (fun p => p.ch))
    ⟨rfl, rfl⟩ ?_ ?_ ?_ ?_ ?_ ?_ ?_
  · intro p hp _ _
    exact ⟨rfl, map_ch_set hp _⟩
  · intro p attempt hp _
    exact ⟨by simp [mainSleeps_append, mainSleeps, isMainSleep], map_ch_set hp _⟩
  · intro p attempt history e wait hp _ _ _ _
    exact ⟨by simp [mainSleeps_append, mainSleeps, isMainSleep], map_ch_set hp _⟩
  · intro p attempt history lastTime evs hp _ _ hevs
    exact ⟨by simp [mainSleeps_append, mainSleeps_sleeps hevs], map_ch_set hp _⟩
  · intro p attempt history evs hp _ hevs
    exact ⟨by simp [mainSleeps_append, mainSleeps_sleeps hevs], map_ch_set hp _⟩
  · intro p lastTime hp _
    exact ⟨rfl, map_ch_set hp _⟩
  · intro p info hp _
    exact ⟨by simp [mainSleeps_append, mainSleeps, isMainSleep], map_ch_set hp _⟩

/-- A schedule without a step of the pagination loop leaves its variables alone. -/
theorem run_probes_only (b : Backend) (cfg : Config) (sched : List Thread) :
    ∀ s : State, sched.count Thread.main = 0 →
      (run b cfg sched s).main = s.main ∧ (run b cfg sched s).calls = s.calls ∧
      (run b cfg sched s).pages = s.pages ∧
      listRequests (run b cfg sched s).trace = listRequests s.trace ∧
      mainSleeps (run b cfg sched s).trace = mainSleeps s.trace ∧
      (run b cfg sched s).probes.map (fun p => p.ch) = s.probes.map (fun p => p.ch) := by
  induction sched with
  | nil => intro s _; exact ⟨rfl, rfl, rfl, rfl, rfl, rfl⟩
  | cons t sched ih =>
    intro s hc
    cases t with
    | main => simp [List.count_cons] at hc
    | probe g =>
      have hc2 : sched.count Thread.main = 0 := by
        simpa [List.count_cons] using hc
      obtain ⟨a1, a2, a3, a4, a5, a6⟩ := ih (stepProbe b cfg s g) hc2
      obtain ⟨m1, m2, m3, m4⟩ := stepProbe_main b cfg s g
      obtain ⟨m5, m6⟩ := stepProbe_view b cfg s g
      have hrun : run b cfg (Thread.probe g :: sched) s = run b cfg sched (stepProbe b cfg s g) := rfl
      rw [hrun]
      exact ⟨a1.trans m1, a2.trans m2, a3.trans m3, a4.trans m4, a5.trans m5, a6.trans m6⟩

theorem stepMain_limited {b : Backend} {cfg : Config} {s : State} {cursor : String} {e : Err}
    {wait : Duration} (hm : s.main = .listing cursor)
    (herr : (b.GetConversations s.calls (listParams cfg cursor)).err = some e)
    (hb : pageBackoff e = some wait) :
    stepMain b cfg s =
      { s with
        calls := s.calls + 1
        trace := s.trace ++ [Event.listRequest (listParams cfg cursor)] ++
          [Event.sleep Thread.main wait] } := by
  unfold stepMain
  simp [hm, herr, hb]

theorem stepMain_page {b : Backend} {cfg : Config} {s : State} {cursor : String}
    (hm : s.main = .listing cursor)
    (herr : (b.GetConversations s.calls (listParams cfg cursor)).err = none) :
    stepMain b cfg s =
      { s with
        calls := s.calls + 1
        trace := s.trace ++ [Event.listRequest (listParams cfg cursor)]
        probes := s.probes ++
          ((b.GetConversations s.calls (listParams cfg cursor)).channels.filter
            (dispatched cfg)).map (fun ch => Probe.mk ch s.pages .blocked)
        wg := s.wg +
          (((b.GetConversations s.calls (listParams cfg cursor)).channels.filter
            (dispatched cfg)).map (fun ch => Probe.mk ch s.pages .blocked)).length
        pages := s.pages + 1
        main := if (b.GetConversations s.calls (listParams cfg cursor)).nextCursor = ""
          then .waiting
          else .listing (b.GetConversations s.calls (listParams cfg cursor)).nextCursor } := by
  unfold stepMain
  simp [hm, herr]

/-- C5: let the pagination loop be about to request the page at `cursor`, and let the
backend answer the next `k` page requests with rate-limit signals and the one after
with a page.  Then under every schedule that gives the loop `k + 1` steps (and the
goroutines any number), the loop has issued `k + 1` page requests, all with `cursor`,
has slept `k` times, has not returned, and has gone on with that page: its channels
are dispatched and the loop is at the next cursor, or at `wg.Wait()` when the next
cursor is empty. -/
theorem C5_rate_limited_page_request_is_retried (b : Backend) (cfg : Config) (k : Nat)
    (sched : List Thread) :
    ∀ (s : State) (cursor : String), s.main = .listing cursor →
      (∀ i, i < k → ∃ e, (b.GetConversations (s.calls + i) (listParams cfg cursor)).err = some e ∧
        isRateLimitSignal e = true) →
      (b.GetConversations (s.calls + k) (listParams cfg cursor)).err = none →
      sched.count Thread.main = k + 1 →
      listRequests (run b cfg sched s).trace =
        listRequests s.trace ++ List.replicate (k + 1) (listParams cfg cursor) ∧
      mainSleeps (run b cfg sched s).trace = mainSleeps s.trace + k ∧
      (run b cfg sched s).main =
        (if (b.GetConversations (s.calls + k) (listParams cfg cursor)).nextCursor = ""
          then .waiting
          else .listing (b.GetConversations (s.calls + k) (listParams cfg cursor)).nextCursor) ∧
      (run b cfg sched s).pages = s.pages + 1 ∧
      (run b cfg sched s).probes.map (fun p => p.ch) =
        s.probes.map (fun p => p.ch) ++
          (b.GetConversations (s.calls + k) (listParams cfg cursor)).channels.filter
            (dispatched cfg) := by
  induction sched generalizing k with
  | nil =>
    intro s cursor _ _ _ hc
    simp at hc
  | cons t sched ih =>
    intro s cursor hm hlimited hpage hc
    cases t with
    | probe g =>
      have hc2 : sched.count Thread.main = k + 1 := by
        simpa [List.count_cons] using hc
      obtain ⟨m1, m2, m3, m4⟩ := stepProbe_main b cfg s g
      obtain ⟨m5, m6⟩ := stepProbe_view b cfg s g
      have hrun : run b cfg (Thread.probe g :: sched) s = run b cfg sched (stepProbe b cfg s g) := rfl
      have := ih k (stepProbe b cfg s g) cursor (m1.trans hm)
        (by rw [m2]; exact hlimited) (by rw [m2]; exact hpage) hc2
      rw [hrun]
      rw [m2, m3, m4, m5, m6] at this
      exact this
    | main =>
      have hc2 : sched.count Thread.main = k := by
        simpa [List.count_cons] using hc
      have hrun : run b cfg (Thread.main :: sched) s = run b cfg sched (stepMain b cfg s) := rfl
      rw [hrun]
      cases k with
      | zero =>
        have hpage0 : (b.GetConversations s.calls (listParams cfg cursor)).err = none := by
          simpa using hpage
        obtain ⟨a1, a2, a3, a4, a5, a6⟩ := run_probes_only b cfg sched (stepMain b cfg s) hc2
        rw [a1, a3, a4, a5, a6, stepMain_page hm hpage0]
        simp [listRequests_append, listRequests, mainSleeps_append, mainSleeps, isMainSleep,
          Function.comp_def]
      | succ k =>
        obtain ⟨e, herr, hsig⟩ := hlimited 0 (by omega)
        obtain ⟨wait, hb⟩ := pageBackoff_of_signal hsig
        have hstep := stepMain_limited hm (by simpa using herr) hb
        have := ih k (stepMain b cfg s) cursor (by rw [hstep]; exact hm)
          (by
            intro i hi
            rw [hstep]
            have := hlimited (i + 1) (by omega)
            simpa [Nat.add_assoc, Nat.add_comm 1 i] using this)
          (by
            rw [hstep]
            simpa [Nat.add_assoc, Nat.add_comm 1 k] using hpage)
          hc2
        rw [hstep] at this
        simp only [] at this
        obtain ⟨b1, b2, b3, b4, b5⟩ := this
        have e1 : s.calls + 1 + k = s.calls + (k + 1) := by omega
        rw [e1] at b3 b5
        refine ⟨?_, ?_, ?_, ?_, ?_⟩
        · rw [hstep, b1]
          simp [listRequests_append, listRequests, List.replicate_succ]
        · rw [hstep, b2]
          simp [mainSleeps_append, mainSleeps, isMainSleep]
          omega
        · rw [hstep]; exact b3
        · rw [hstep]; exact b4
        · rw [hstep]; exact b5

/-- C5 on the sample backend that answers one rate-limit signal and then a page. -/
theorem C5_witness :
    getFilteredChannels limitedBackend demoConfig
      [.main, .main, .probe 0, .probe 0, .probe 0, .probe 0, .probe 0, .main] =
      some ([⟨"C1", "alpha", Time.Unix 50⟩], none) ∧
    listRequests (run limitedBackend demoConfig [.main, .main] State.init).trace =
      listRequests State.init.trace ++ List.replicate (1 + 1) (listParams demoConfig "") ∧
    mainSleeps (run limitedBackend demoConfig [.main, .main] State.init).trace =
      mainSleeps State.init.trace + 1 := by
  have h := C5_rate_limited_page_request_is_retried limitedBackend demoConfig 1 [.main, .main]
    State.init "" rfl
    (fun i hi => by
      have hi0 : i = 0 := by omega
      subst hi0
      exact ⟨⟨"rate_limited", none⟩, rfl, by decide⟩)
    rfl (by decide)
  exact ⟨by decide, h.1, h.2.1⟩

/-! ## Every run can be completed -/

theorem sum_set_of_get (f : Probe → Nat) :
    ∀ (l : List Probe) (g : Nat) (p q : Probe), l[g]? = some p →
      ((l.set g q).map f).sum + f p = (l.map f).sum + f q
  | [], g, p, q, h => by simp at h
  | x :: l, 0, p, q, h => by
    simp at h
    subst h
    simp only [List.set_cons_zero, List.map_cons, List.sum_cons]
    omega
  | x :: l, g + 1, p, q, h => by
    simp at h
    have := sum_set_of_get f l g p q h
    simp only [List.set_cons_succ, List.map_cons, List.sum_cons]
    omega

/-- A goroutine that can move gets closer to its return. -/
theorem enabled_decreases {b : Backend} {cfg : Config} {s : State} {g : Nat} {p : Probe}
    (hp : s.probes[g]? = some p) (hen : ¬ (p.pc = .blocked ∧ ¬ s.semaphore < 5))
    (hnd : ∀ out, p.pc ≠ .done out) : workLeft (stepProbe b cfg s g) < workLeft s := by
  refine stepProbe_cases b cfg s g (P := fun s1 => workLeft s1 < workLeft s) ?_ ?_ ?_ ?_ ?_ ?_ ?_ ?_
  · intro hdis
    exfalso
    rcases hdis p hp with h | ⟨out, h⟩
    · exact hen h
    · exact hnd out h
  · intro q hq hpc _
    have := sum_set_of_get (fun p => remaining p.pc) s.probes g q
      { q with pc := if cfg.useDate then .request 0 else .ready Time.zero } hq
    simp only [workLeft]
    cases hu : cfg.useDate <;> simp [hu, hpc, remaining] at this ⊢ <;> omega
  · intro q attempt hq hpc
    have := sum_set_of_get (fun p => remaining p.pc) s.probes g q
      { q with pc := .check attempt (b.GetConversationHistory g attempt ⟨q.ch.ID, 1⟩).history } hq
    simp only [workLeft]
    simp [hpc, remaining] at this ⊢
    omega
  · intro q attempt history e wait hq hpc _ _ hlt
    have := sum_set_of_get (fun p => remaining p.pc) s.probes g q
      { q with pc := .request (attempt + 1) } hq
    simp only [workLeft]
    simp [hpc, remaining] at this ⊢
    omega
  · intro q attempt history lastTime evs hq hpc _ _
    have := sum_set_of_get (fun p => remaining p.pc) s.probes g q
      { q with pc := .ready lastTime } hq
    simp only [workLeft]
    simp [hpc, remaining] at this ⊢
    omega
  · intro q attempt history evs hq hpc _
    have := sum_set_of_get (fun p => remaining p.pc) s.probes g q
      { q with pc := .done none } hq
    simp only [workLeft]
    simp [hpc, remaining] at this ⊢
    omega
  · intro q lastTime hq hpc
    have := sum_set_of_get (fun p => remaining p.pc) s.probes g q
      { q with pc := .pacing ⟨q.ch.ID, q.ch.Name, lastTime⟩ } hq
    simp only [workLeft]
    simp [hpc, remaining] at this ⊢
    omega
  · intro q info hq hpc
    have := sum_set_of_get (fun p => remaining p.pc) s.probes g q
      { q with pc := .done (some info) } hq
    simp only [workLeft]
    simp [hpc, remaining] at this ⊢
    omega

/-- While a goroutine has not returned, some goroutine can move. -/
theorem progress (b : Backend) (cfg : Config) {s : State} (hg : GateInv s)
    (hpos : 0 < workLeft s) : ∃ g, workLeft (stepProbe b cfg s g) < workLeft s := by
  by_cases hhold : ∃ (g : Nat) (p : Probe), s.probes[g]? = some p ∧ holding p.pc = true
  · obtain ⟨g, p, hp, hh⟩ := hhold
    refine ⟨g, enabled_decreases hp ?_ ?_⟩
    · intro hb
      rw [hb.1] at hh
      simp [holding] at hh
    · intro out hd
      rw [hd] at hh
      simp [holding] at hh
  · have hsem : s.semaphore = 0 := by
      rw [hg.sem_eq, List.countP_eq_zero]
      intro p hp hh
      obtain ⟨g, hgp⟩ := List.mem_iff_getElem?.1 hp
      exact hhold ⟨g, p, hgp, hh⟩
    have hex : ∃ p ∈ s.probes, remaining p.pc ≠ 0 := by
      by_contra hall
      have hzero : workLeft s = 0 := by
        unfold workLeft
        apply List.sum_eq_zero
        intro x hx
        rw [List.mem_map] at hx
        obtain ⟨p, hp, rfl⟩ := hx
        by_contra hne
        exact hall ⟨p, hp, hne⟩
      omega
    obtain ⟨p, hp, hrem⟩ := hex
    obtain ⟨g, hgp⟩ := List.mem_iff_getElem?.1 hp
    refine ⟨g, enabled_decreases hgp ?_ ?_⟩
    · intro hb
      exact hb.2 (by omega)
    · intro out hd
      rw [hd] at hrem
      simp [remaining] at hrem

theorem finish_probes {b : Backend} {cfg : Config} :
    ∀ (n : Nat) (s : State), workLeft s ≤ n → Inv b cfg s →
      ∃ more : List Thread, more.count Thread.main = 0 ∧ workLeft (run b cfg more s) = 0 := by
  intro n
  induction n with
  | zero =>
    intro s h _
    exact ⟨[], rfl, by simpa [run] using h⟩
  | succ n ih =>
    intro s h hinv
    by_cases hz : workLeft s = 0
    · exact ⟨[], rfl, by simpa [run] using hz⟩
    · obtain ⟨g, hlt⟩ := progress b cfg hinv.gate (by omega)
      obtain ⟨more, hc, hw⟩ := ih (stepProbe b cfg s g) (by omega) (hinv.inv_step (Thread.probe g))
      exact ⟨Thread.probe g :: more, by simpa [List.count_cons] using hc, hw⟩

theorem stepMain_return {b : Backend} {cfg : Config} {s : State} (hm : s.main = .waiting)
    (hwg : s.wg = 0) : stepMain b cfg s = { s with main := .returned s.results none } := by
  unfold stepMain
  simp [hm, hwg]

theorem wg_zero_of_workLeft {s : State} (hg : GateInv s) (hw : workLeft s = 0) : s.wg = 0 := by
  rw [hg.wg_eq, List.countP_eq_zero]
  intro p hp hrun
  have hzero : remaining p.pc = 0 := by
    unfold workLeft at hw
    exact List.sum_eq_zero_iff.1 hw _ (List.mem_map.2 ⟨p, hp, rfl⟩)
  cases hpc : p.pc <;> simp [hpc, remaining, running] at hzero hrun

/-- Once the last page is listed, the goroutines can be run to their end, and the
call then returns `results` with a nil error. -/
theorem can_finish {b : Backend} {cfg : Config} {s : State} (hinv : Inv b cfg s)
    (hm : s.main = .waiting) :
    ∃ more res, (run b cfg more s).main = .returned res none := by
  obtain ⟨more, hc, hw⟩ := finish_probes (workLeft s) s (le_refl _) hinv
  obtain ⟨a1, _⟩ := run_probes_only b cfg more s hc
  have hinv2 := hinv.inv_run more
  have hwg := wg_zero_of_workLeft hinv2.gate hw
  refine ⟨more ++ [Thread.main], (run b cfg more s).results, ?_⟩
  rw [run_append]
  have : run b cfg [Thread.main] (run b cfg more s) = stepMain b cfg (run b cfg more s) := rfl
  rw [this, stepMain_return (a1.trans hm) hwg]

/-! ## Probes that retrieve no usable message -/

theorem ChainInv.chain_init (b : Backend) (cfg : Config) (last : Nat) :
    ChainInv b cfg last State.init := by
  simp [ChainInv, State.init, cursorAt, dispatchedUpTo]

theorem ChainInv.chain_stepProbe {b : Backend} {cfg : Config} {last : Nat} {s : State}
    (h : ChainInv b cfg last s) (g : Nat) : ChainInv b cfg last (stepProbe b cfg s g) := by
  obtain ⟨m1, m2, _, _⟩ := stepProbe_main b cfg s g
  obtain ⟨_, m6⟩ := stepProbe_view b cfg s g
  unfold ChainInv at h ⊢
  rw [m1, m2, m6]
  exact h

/-- The request the loop sends at the cursor of page `n` is the request of page `n`
of the cursor chain. -/
theorem pageAt_of_cursor {b : Backend} {cfg : Config} {n : Nat} {cursor : String}
    (h : cursor = cursorAt b cfg n) :
    b.GetConversations n (listParams cfg cursor) = pageAt b cfg n := by
  subst h
  rfl

theorem dispatchedUpTo_succ (b : Backend) (cfg : Config) (n : Nat) :
    dispatchedUpTo b cfg (n + 1) =
      dispatchedUpTo b cfg n ++ (pageAt b cfg n).channels.filter (dispatched cfg) := by
  simp [dispatchedUpTo, List.range_succ, List.flatMap_append]

theorem ChainInv.chain_stepMain {b : Backend} {cfg : Config} {last : Nat} {s : State}
    (hc : FiniteChain b cfg last) (h : ChainInv b cfg last s) :
    ChainInv b cfg last (stepMain b cfg s) := by
  obtain ⟨c1, c2, c3⟩ := hc
  refine stepMain_elim b cfg s (P := ChainInv b cfg last) h ?_ ?_ ?_ ?_
  · intro cursor e wait hm herr _
    exfalso
    simp only [ChainInv, hm] at h
    obtain ⟨hle, hcur, _⟩ := h
    have := c1 s.calls hle
    rw [← pageAt_of_cursor hcur, herr] at this
    cases this
  · intro cursor e hm herr _
    exfalso
    simp only [ChainInv, hm] at h
    obtain ⟨hle, hcur, _⟩ := h
    have := c1 s.calls hle
    rw [← pageAt_of_cursor hcur, herr] at this
    cases this
  · intro cursor hm herr
    simp only [ChainInv, hm] at h
    obtain ⟨hle, hcur, hprobes⟩ := h
    have hpage : b.GetConversations s.calls (listParams cfg cursor) = pageAt b cfg s.calls :=
      pageAt_of_cursor hcur
    have hmap : (s.probes ++
        ((b.GetConversations s.calls (listParams cfg cursor)).channels.filter
          (dispatched cfg)).map (fun ch => Probe.mk ch s.pages .blocked)).map (fun p => p.ch) =
        dispatchedUpTo b cfg (s.calls + 1) := by
      rw [dispatchedUpTo_succ, List.map_append, hprobes, hpage]
      simp [Function.comp_def]
    rw [hpage] at hmap ⊢
    by_cases hnext : (pageAt b cfg s.calls).nextCursor = ""
    · have hlast : s.calls = last := by
        by_contra hne
        exact c2 s.calls (by omega) hnext
      simp only [ChainInv, hnext, if_true]
      rw [← hlast]
      exact hmap
    · have hlt : s.calls < last := by
        by_contra hge
        have : s.calls = last := by omega
        rw [this] at hnext
        exact hnext c3
      simp only [ChainInv, hnext, if_false]
      refine ⟨by omega, ?_, hmap⟩
      simp [cursorAt, pageAt]
  · intro hm _
    simp only [ChainInv, hm] at h
    simp only [ChainInv]
    exact ⟨trivial, h⟩

theorem ChainInv.chain_run {b : Backend} {cfg : Config} {last : Nat}
    (hc : FiniteChain b cfg last) (sched : List Thread) :
    ∀ {s : State}, ChainInv b cfg last s → ChainInv b cfg last (run b cfg sched s) := by
  induction sched with
  | nil => intro s h; exact h
  | cons t sched ih =>
    intro s h
    cases t with
    | main => exact ih (h.chain_stepMain hc)
    | probe g => exact ih (h.chain_stepProbe g)

/-- Along a finite chain the pagination loop reaches `wg.Wait()`. -/
theorem reach_waiting {b : Backend} {cfg : Config} {last : Nat} (hc : FiniteChain b cfg last) :
    ∀ (n : Nat) (s : State), last + 1 - s.calls ≤ n → ChainInv b cfg last s →
      (∃ cursor, s.main = .listing cursor) →
      ∃ sched, (run b cfg sched s).main = .waiting := by
  intro n
  induction n with
  | zero =>
    intro s hn h ⟨cursor, hm⟩
    exfalso
    simp only [ChainInv, hm] at h
    omega
  | succ n ih =>
    intro s hn h ⟨cursor, hm⟩
    have h2 := h
    simp only [ChainInv, hm] at h2
    obtain ⟨hle, hcur, _⟩ := h2
    have herr : (b.GetConversations s.calls (listParams cfg cursor)).err = none := by
      have := hc.1 s.calls hle
      rw [← pageAt_of_cursor hcur] at this
      exact this
    have hstep := stepMain_page hm herr
    have hinv2 := h.chain_stepMain hc
    by_cases hnext : (b.GetConversations s.calls (listParams cfg cursor)).nextCursor = ""
    · refine ⟨[Thread.main], ?_⟩
      have : run b cfg [Thread.main] s = stepMain b cfg s := rfl
      rw [this, hstep]
      simp [hnext]
    · have hmain : (stepMain b cfg s).main =
          .listing (b.GetConversations s.calls (listParams cfg cursor)).nextCursor := by
        rw [hstep]
        simp [hnext]
      have hcalls : (stepMain b cfg s).calls = s.calls + 1 := by
        rw [hstep]
      obtain ⟨sched, hs⟩ := ih (stepMain b cfg s) (by rw [hcalls]; omega) hinv2 ⟨_, hmain⟩
      exact ⟨Thread.main :: sched, hs⟩

theorem filter_dispatched_eq (cfg : Config) (chs : List Channel) :
    chs.filter (dispatched cfg) = chs.filter (fun ch => decide (Selected cfg ch)) := by
  apply List.filter_congr
  intro ch _
  have := dispatched_iff cfg ch
  unfold Selected
  cases hd : dispatched cfg ch
  · simp only [hd] at this
    symm
    rw [decide_eq_false_iff_not]
    intro hsel
    have := this.2 hsel
    cases this
  · symm
    rw [decide_eq_true_iff]
    exact this.1 hd

theorem expectedWithoutDate_eq (b : Backend) (cfg : Config) (last : Nat) :
    expectedWithoutDate b cfg last =
      (dispatchedUpTo b cfg (last + 1)).map (fun ch => ⟨ch.ID, ch.Name, Time.zero⟩) := by
  unfold expectedWithoutDate dispatchedUpTo
  rw [List.map_flatMap]
  congr 1
  funext n
  rw [filter_dispatched_eq]

theorem filterMap_eq_map_of_forall {α β : Type} (f : α → Option β) (g : α → β) :
    ∀ l : List α, (∀ x ∈ l, f x = some (g x)) → l.filterMap f = l.map g
  | [], _ => rfl
  | x :: l, h => by
    rw [List.filterMap_cons, h x (by simp), List.map_cons,
      filterMap_eq_map_of_forall f g l (fun y hy => h y (List.mem_cons_of_mem _ hy))]

/-- Without date filter, a goroutine that has returned has appended its channel with
the zero time. -/
theorem appended_without_date {b : Backend} {cfg : Config} {s : State} (hinv : Inv b cfg s)
    (hdate : cfg.useDate = false) (hwg : s.wg = 0) :
    ∀ p ∈ s.probes, appended p.pc = some ⟨p.ch.ID, p.ch.Name, Time.zero⟩ := by
  intro p hp
  obtain ⟨g, hg⟩ := List.mem_iff_getElem?.1 hp
  obtain ⟨_, _, hpc⟩ := hinv.probes.probes_ok g p hg
  have hrun : running p.pc = false := by
    by_contra hr
    have := countP_pos_of_get (fun p => running p.pc) hg (by simpa using hr)
    rw [← hinv.gate.wg_eq] at this
    omega
  cases hpcv : p.pc with
  | blocked => simp [hpcv, running] at hrun
  | request a => simp [hpcv, running] at hrun
  | check a hh => simp [hpcv, running] at hrun
  | ready t => simp [hpcv, running] at hrun
  | pacing i => simp [hpcv, running] at hrun
  | done out =>
    rw [hpcv] at hpc
    cases out with
    | none =>
      have := hpc.1
      rw [hdate] at this
      cases this
    | some info =>
      obtain ⟨_, h1, h2, h3⟩ := hpc
      simp only [TimeOK, hdate] at h3
      simp only [appended]
      cases info
      simp_all

/-- C3: let the cursor chain of the backend be finite with every page fetch
succeeding, and let the date filter be off.  Then every schedule can be continued so
that `getFilteredChannels` returns; whenever it returns, the error is nil and the
list is, up to order, the selected channels of all pages of the chain (member, name
not in the skip set, name containing the keyword when the keyword is not empty), each
with the zero `LastSeen`; and no history request is ever issued. -/
theorem C3_keyword_only_returns_selected_channels (b : Backend) (cfg : Config) (last : Nat)
    (hchain : FiniteChain b cfg last) (hdate : cfg.useDate = false) :
    (∀ sched, ∃ more res, getFilteredChannels b cfg (sched ++ more) = some (res, none)) ∧
    (∀ sched res err, getFilteredChannels b cfg sched = some (res, err) →
      err = none ∧ res.Perm (expectedWithoutDate b cfg last)) ∧
    (∀ sched g params, Event.historyRequest g params ∉ (run b cfg sched State.init).trace) := by
  refine ⟨?_, ?_, ?_⟩
  · intro sched
    have hinv := inv_reachable b cfg sched
    have hch := (ChainInv.chain_init b cfg last).chain_run hchain sched
    cases hm : (run b cfg sched State.init).main with
    | listing cursor =>
      obtain ⟨sched1, hw⟩ := reach_waiting hchain _ (run b cfg sched State.init) (le_refl _) hch
        ⟨cursor, hm⟩
      obtain ⟨more, res, hfin⟩ := can_finish (hinv.inv_run sched1) hw
      refine ⟨sched1 ++ more, res, ?_⟩
      rw [getFilteredChannels_eq_some, run_append, run_append]
      exact hfin
    | waiting =>
      obtain ⟨more, res, hfin⟩ := can_finish hinv hm
      refine ⟨more, res, ?_⟩
      rw [getFilteredChannels_eq_some, run_append]
      exact hfin
    | returned res err =>
      simp only [ChainInv, hm] at hch
      obtain ⟨herr, _⟩ := hch
      subst herr
      refine ⟨[], res, ?_⟩
      rw [getFilteredChannels_eq_some, List.append_nil]
      exact hm
  · intro sched res err hret
    rw [getFilteredChannels_eq_some] at hret
    have hinv := inv_reachable b cfg sched
    have hch := (ChainInv.chain_init b cfg last).chain_run hchain sched
    simp only [ChainInv, hret] at hch
    obtain ⟨herr, hprobes⟩ := hch
    subst herr
    refine ⟨rfl, ?_⟩
    obtain ⟨hres, hwg⟩ := hinv.main.returned_ok res hret
    subst hres
    have hperm : (run b cfg sched State.init).results.Perm _ := hinv.results
    rw [filterMap_eq_map_of_forall _ (fun p => (⟨p.ch.ID, p.ch.Name, Time.zero⟩ : ChannelInfo)) _
      (appended_without_date hinv hdate hwg)] at hperm
    rw [expectedWithoutDate_eq, ← hprobes, List.map_map]
    exact hperm
  · intro sched g params hmem
    have := ((inv_reachable b cfg sched).probes.requests_ok g params hmem).1
    rw [hdate] at this
    cases this

theorem paged_chain : FiniteChain pagedBackend keywordConfig 1 := by
  refine ⟨?_, ?_, by decide⟩
  · intro n hn
    have h : n = 0 ∨ n = 1 := by omega
    rcases h with rfl | rfl <;> decide
  · intro n hn
    have h : n = 0 := by omega
    subst h
    decide

/-- C3 on the backend with two pages and the keyword "alp": the second page is
fetched with the cursor "page2", the goroutines finish in the reverse order, and the
returned list is a permutation of the selected channels of both pages. -/
theorem C3_witness :
    FiniteChain pagedBackend keywordConfig 1 ∧ keywordConfig.useDate = false ∧
    listRequests (run pagedBackend keywordConfig [.main, .main] State.init).trace =
      [⟨30, true, "", ["public_channel", "private_channel"]⟩,
        ⟨30, true, "page2", ["public_channel", "private_channel"]⟩] ∧
    getFilteredChannels pagedBackend keywordConfig
      [.main, .main, .probe 1, .probe 1, .probe 1, .probe 0, .probe 0, .probe 0, .main] =
      some ([⟨"C3", "alpine", Time.zero⟩, ⟨"C1", "alpha", Time.zero⟩], none) ∧
    expectedWithoutDate pagedBackend keywordConfig 1 =
      [⟨"C1", "alpha", Time.zero⟩, ⟨"C3", "alpine", Time.zero⟩] ∧
    ((none : Option WrappedErr) = none ∧
      List.Perm [(⟨"C3", "alpine", Time.zero⟩ : ChannelInfo), ⟨"C1", "alpha", Time.zero⟩]
        (expectedWithoutDate pagedBackend keywordConfig 1)) :=
  ⟨paged_chain, rfl, by decide, by decide, by decide,
    (C3_keyword_only_returns_selected_channels pagedBackend keywordConfig 1 paged_chain rfl).2.1
      [.main, .main, .probe 1, .probe 1, .probe 1, .probe 0, .probe 0, .probe 0, .main] _ none
      (by decide)⟩

end ChannelCleaner
